import Mathlib

/-!
# A verification model of the Hermes2D adaptive mesh engine

This file gives a shallow embedding, in Lean 4, of the mesh data structure and
the refinement / derefinement / regularization operations of
`hermes2d/src/mesh/mesh.cpp`, and proves (or refutes) the stated properties of
that code.

Modelling conventions:
* Node and element stores are Lean lists indexed by position; the id of a node
  or element is its index.  The C++ `Array` container may reuse freed slots for
  new items; the model always appends, which only changes which ids freshly
  created items receive (no property below depends on the concrete ids of
  recreated items).
* `double` coordinates are modelled as exact unnormalized rationals (`Coord`),
  compared by cross multiplication; the operations modelled here use only
  exact field arithmetic on them.
* C++ exceptions are modelled by `Except HErr`; a C++ `assert` (and the null
  dereferences the asserts guard) is modelled as an error as well.
* The curved-geometry module (`CurvMap`) is opaque to the mesh code given
  here; it is modelled as a `curved : Bool` flag on elements, inherited by
  sons.  Coordinate adjustment of curved sons (`get_mid_edge_points`) is
  external code and is not modelled; no property below depends on curved sons'
  coordinates.
* The hash table (`hash.cpp`), the element node-reference counting
  (`element.cpp`) and `MeshUtil::get_edge_sons` (`mesh_util.cpp`) are not
  among the given sources; they are modelled from the specification, as
  documented at each definition.
-/

namespace Hermes2D

/-- Exact rational coordinate (numerator and positive denominator, not
normalized), modelling the `double` coordinates exactly for the values that
arise from mesh creation and refinement.  Equality of values is the
cross-multiplication test `ceq`. -/
structure Coord where
  num : Int
  den : Int
  deriving DecidableEq, Repr

/-- Coordinate value equality by cross multiplication. -/
def Coord.ceq (a b : Coord) : Bool := a.num * b.den == b.num * a.den

/-- Coordinate addition. -/
def Coord.add (a b : Coord) : Coord :=
  ⟨a.num * b.den + b.num * a.den, a.den * b.den⟩

/-- Halving (the `* 0.5` of the mid-point computations). -/
def Coord.half (a : Coord) : Coord := ⟨a.num, 2 * a.den⟩

/-- Thirding (the `/ 3` of the centroid computation). -/
def Coord.thirdOf (a : Coord) : Coord := ⟨a.num, 3 * a.den⟩

/-- The integer coordinate `n`. -/
def Coord.ofInt (n : Int) : Coord := ⟨n, 1⟩

/-- Node type tag: `HERMES_TYPE_VERTEX` (0) or `HERMES_TYPE_EDGE` (1). -/
inductive NodeType where
  | vertex
  | edge
  deriving DecidableEq, Repr

/-- A node of the mesh: a vertex node (coordinates `x`, `y`) or an edge node
(boundary `marker`).  Both carry the reference count `ref`, the boundary flag
`bnd` and the key pair `p1 ≤ p2` of endpoint vertex ids (`-1` for top-level
vertex nodes, i.e. no key).  `used = false` marks a logically deleted slot. -/
structure Node where
  used : Bool
  type : NodeType
  ref : Int
  bnd : Int
  p1 : Int
  p2 : Int
  x : Coord
  y : Coord
  marker : Int
  deriving DecidableEq, Repr

/-- A mesh element: triangle (`nvert = 3`) or quadrilateral (`nvert = 4`),
with vertex node ids `vn`, edge node ids `en`, up to four son element ids
`sons`, a parent back reference, an `active` flag (leaf of the refinement
tree) and a `used` flag (exists vs. logically deleted).  In the C++ source
`en` and `sons` share a union; the model keeps them separate, clearing `sons`
whenever the union is re-purposed for edge nodes. -/
structure Element where
  used : Bool
  active : Bool
  marker : Int
  nvert : Nat
  vn : List Nat
  en : List Nat
  sons : List (Option Nat)
  parent : Option Nat
  curved : Bool
  iro_cache : Int
  deriving DecidableEq, Repr

/-- Error kinds of the mesh engine (spec §7). -/
inductive HErr where
  | meshLoadFailure (msg : String)
  | generalException (msg : String)
  | valueException (msg : String)
  | curvedException (elementId : Nat)
  | fuelExhausted
  deriving DecidableEq, Repr

/-- The mesh: node store (owning the hash-consed vertex/edge nodes), element
store, counters and the refinement log, as in `Mesh`'s fields. -/
structure Mesh where
  nodes : List Node
  elements : List Element
  nbase : Int
  nactive : Int
  ntopvert : Int
  ninitial : Int
  seq : Nat
  refinements : List (Nat × Int)
  deriving DecidableEq, Repr

instance {ε α : Type} [DecidableEq ε] [DecidableEq α] :
    DecidableEq (Except ε α) := fun x y =>
  match x, y with
  | .error a, .error b =>
    if h : a = b then .isTrue (by rw [h]) else .isFalse (by simp [h])
  | .ok a, .ok b =>
    if h : a = b then .isTrue (by rw [h]) else .isFalse (by simp [h])
  | .error _, .ok _ => .isFalse (by simp)
  | .ok _, .error _ => .isFalse (by simp)

/-- Error-propagating left fold (explicit, to keep proofs by direct case
analysis). -/
def foldE {σ α : Type} (f : σ → α → Except HErr σ) : σ → List α → Except HErr σ
  | s, [] => .ok s
  | s, a :: as =>
    match f s a with
    | .error e => .error e
    | .ok s' => foldE f s' as

/-- Error-propagating map (explicit). -/
def mapE {α β : Type} (f : α → Except HErr β) : List α → Except HErr (List β)
  | [] => .ok []
  | a :: as =>
    match f a with
    | .error e => .error e
    | .ok b =>
      match mapE f as with
      | .error e => .error e
      | .ok bs => .ok (b :: bs)

/-- Placeholder node returned by out-of-range accesses. -/
def dummyNode : Node :=
  { used := false, type := .vertex, ref := 0, bnd := 0, p1 := -1, p2 := -1,
    x := ⟨0, 1⟩, y := ⟨0, 1⟩, marker := 0 }

/-- Placeholder element returned by out-of-range accesses. -/
def dummyElement : Element :=
  { used := false, active := false, marker := 0, nvert := 3, vn := [], en := [],
    sons := [none, none, none, none], parent := none, curved := false,
    iro_cache := 0 }

/-- `TOP_LEVEL_REF`: the huge initial reference count given to top-level
vertex nodes so that they are never released. -/
def TOP_LEVEL_REF : Int := 0x49349493

def Mesh.nodeAt (m : Mesh) (i : Nat) : Node := m.nodes.getD i dummyNode

def Mesh.elemAt (m : Mesh) (i : Nat) : Element := m.elements.getD i dummyElement

/-- Point update of the node store (out-of-range update is a no-op). -/
def Mesh.setNodeF (m : Mesh) (i : Nat) (f : Node → Node) : Mesh :=
  { m with nodes := m.nodes.set i (f (m.nodeAt i)) }

/-- Point update of the element store (out-of-range update is a no-op). -/
def Mesh.setElemF (m : Mesh) (i : Nat) (f : Element → Element) : Mesh :=
  { m with elements := m.elements.set i (f (m.elemAt i)) }

/-- First index (counting from `i`) of a node satisfying a predicate. -/
def findIdxFrom (p : Node → Bool) : List Node → Nat → Option Nat
  | [], _ => none
  | n :: rest, i => if p n then some i else findIdxFrom p rest (i + 1)

/-- The normalized unordered key of a vertex id pair, as in the source's
`if (p1 > p2) std::swap(p1, p2)`. -/
def normKey (a b : Nat) : Int × Int := ((min a b : Nat), (max a b : Nat))

/-- Does node `nd` carry key `(a, b)` (normalized) with the given type? -/
def Node.keyedBy (nd : Node) (t : NodeType) (a b : Nat) : Bool :=
  nd.used && nd.type == t && nd.p1 == (normKey a b).1 && nd.p2 == (normKey a b).2

/-- Modelled from the spec (§4.1; `hash.cpp` is not among the given sources):
`peek_vertex_node` returns the existing used vertex node keyed by the
unordered id pair, or `none`; it never allocates.  The bucket structure of the
hash table is abstracted away (the key search is over the whole node store). -/
def Mesh.peek_vertex_node (m : Mesh) (a b : Nat) : Option Nat :=
  findIdxFrom (fun nd => nd.keyedBy .vertex a b) m.nodes 0

/-- Modelled from the spec (§4.1): `peek_edge_node`, the non-allocating lookup
for edge nodes. -/
def Mesh.peek_edge_node (m : Mesh) (a b : Nat) : Option Nat :=
  findIdxFrom (fun nd => nd.keyedBy .edge a b) m.nodes 0

/-- Modelled from the spec (§4.1) and the node initialization visible in
`mesh.cpp` (`get_vertex_node` free function): return the existing vertex node
keyed by the unordered pair if present, else insert a fresh one with
`ref = 0`, `bnd = 0` and the straight mid-point coordinates of its two parent
vertices. -/
def Mesh.get_vertex_node (m : Mesh) (a b : Nat) : Mesh × Nat :=
  match m.peek_vertex_node a b with
  | some i => (m, i)
  | none =>
    let node : Node :=
      { used := true, type := .vertex, ref := 0, bnd := 0,
        p1 := (normKey a b).1, p2 := (normKey a b).2,
        x := ((m.nodeAt a).x.add (m.nodeAt b).x).half,
        y := ((m.nodeAt a).y.add (m.nodeAt b).y).half, marker := 0 }
    ({ m with nodes := m.nodes ++ [node] }, m.nodes.length)

/-- Modelled from the spec (§4.1) and the node initialization visible in
`mesh.cpp` (`get_edge_node` free function): return the existing edge node
keyed by the unordered pair if present, else insert a fresh one with
`ref = 0`, `bnd = 0`, `marker = 0`. -/
def Mesh.get_edge_node (m : Mesh) (a b : Nat) : Mesh × Nat :=
  match m.peek_edge_node a b with
  | some i => (m, i)
  | none =>
    let node : Node :=
      { used := true, type := .edge, ref := 0, bnd := 0,
        p1 := (normKey a b).1, p2 := (normKey a b).2,
        x := ⟨0, 1⟩, y := ⟨0, 1⟩, marker := 0 }
    ({ m with nodes := m.nodes ++ [node] }, m.nodes.length)

/-- Increment the reference count of node `i`. -/
def Mesh.refNode (m : Mesh) (i : Nat) : Mesh :=
  m.setNodeF i fun nd => { nd with ref := nd.ref + 1 }

/-- Modelled from the spec (§3, §4.1; `element.cpp` is not among the given
sources): decrement the reference count of node `i`; at zero the node is
removed from the table and released. -/
def Mesh.unrefNode (m : Mesh) (i : Nat) : Mesh :=
  m.setNodeF i fun nd =>
    if nd.ref - 1 = 0 then { nd with ref := nd.ref - 1, used := false }
    else { nd with ref := nd.ref - 1 }

/-- The node ids referenced by an element (its vertices, then its edges). -/
def Element.allNodeIds (e : Element) : List Nat := e.vn ++ e.en

/-- Modelled from the spec (`element.cpp` is not among the given sources):
`Element::ref_all_nodes` increments the reference count of every vertex and
edge node of the element. -/
def Mesh.ref_all_nodes (m : Mesh) (e : Element) : Mesh :=
  e.allNodeIds.foldl Mesh.refNode m

/-- Modelled from the spec (`element.cpp` is not among the given sources):
`Element::unref_all_nodes` decrements the reference count of every vertex and
edge node of the element, releasing nodes whose count drops to zero. -/
def Mesh.unref_all_nodes (m : Mesh) (e : Element) : Mesh :=
  e.allNodeIds.foldl Mesh.unrefNode m

/-- `Element::is_triangle`. -/
def Element.is_triangle (e : Element) : Bool := e.nvert == 3

/-- `Element::is_curved` (the element carries a `CurvMap`). -/
def Element.is_curved (e : Element) : Bool := e.curved

/-- Vertex id at local position `i`. -/
def Element.vnAt (e : Element) (i : Nat) : Nat := e.vn.getD i 0

/-- Edge node id at local position `i`. -/
def Element.enAt (e : Element) (i : Nat) : Nat := e.en.getD i 0

/-- Son slot at position `i` (of the four slots). -/
def Element.sonAt (e : Element) (i : Nat) : Option Nat := e.sons.getD i none

/-- `Element::next_vert`: cyclic successor of a local vertex index. -/
def Element.next_vert (e : Element) (i : Nat) : Nat := (i + 1) % e.nvert

/-- `Element::prev_vert`: cyclic predecessor of a local vertex index. -/
def Element.prev_vert (e : Element) (i : Nat) : Nat := (i + e.nvert - 1) % e.nvert

/-- `Mesh::create_triangle` (without the optional forced id, which is used
only by mesh copying): validate the three vertices (identical vertices, all
sharing an x- or y-coordinate), allocate the element, look up / create its
three edge nodes and reference all its nodes.  Returns the new element's id. -/
def Mesh.create_triangle (m : Mesh) (marker : Int) (v0 v1 v2 : Nat)
    (curved : Bool) : Except HErr (Mesh × Nat) :=
  let eid := m.elements.length
  if v0 = v1 ∨ v1 = v2 ∨ v2 = v0 then
    .error (.meshLoadFailure "identical vertices")
  else if ((m.nodeAt v0).x.ceq (m.nodeAt v1).x
      && (m.nodeAt v0).x.ceq (m.nodeAt v2).x) = true then
    .error (.meshLoadFailure "vertices share x-coordinates")
  else if ((m.nodeAt v0).y.ceq (m.nodeAt v1).y
      && (m.nodeAt v0).y.ceq (m.nodeAt v2).y) = true then
    .error (.meshLoadFailure "vertices share y-coordinates")
  else
    let q0 := m.get_edge_node v0 v1
    let q1 := q0.1.get_edge_node v1 v2
    let q2 := q1.1.get_edge_node v2 v0
    let e : Element :=
      { used := true, active := true, marker := marker, nvert := 3,
        vn := [v0, v1, v2], en := [q0.2, q1.2, q2.2],
        sons := [none, none, none, none], parent := none, curved := curved,
        iro_cache := 0 }
    let m' := { q2.1 with elements := q2.1.elements ++ [e] }
    .ok (m'.ref_all_nodes e, eid)

/-- `Mesh::create_quad` (without the optional forced id): validate the four
vertices, allocate the element, look up / create its four edge nodes and
reference all its nodes.  Returns the new element's id. -/
def Mesh.create_quad (m : Mesh) (marker : Int) (v0 v1 v2 v3 : Nat)
    (curved : Bool) : Except HErr (Mesh × Nat) :=
  let eid := m.elements.length
  if v0 = v1 ∨ v1 = v2 ∨ v2 = v3 ∨ v3 = v0 ∨ v2 = v0 ∨ v3 = v1 then
    .error (.meshLoadFailure "identical vertices")
  else if (((m.nodeAt v0).x.ceq (m.nodeAt v1).x && (m.nodeAt v0).x.ceq (m.nodeAt v2).x)
      || ((m.nodeAt v0).x.ceq (m.nodeAt v1).x && (m.nodeAt v0).x.ceq (m.nodeAt v3).x)
      || ((m.nodeAt v0).x.ceq (m.nodeAt v2).x && (m.nodeAt v0).x.ceq (m.nodeAt v3).x)
      || ((m.nodeAt v1).x.ceq (m.nodeAt v2).x && (m.nodeAt v2).x.ceq (m.nodeAt v3).x)) = true then
    .error (.meshLoadFailure "vertices share x-coordinates")
  else if (((m.nodeAt v0).y.ceq (m.nodeAt v1).y && (m.nodeAt v0).y.ceq (m.nodeAt v2).y)
      || ((m.nodeAt v0).y.ceq (m.nodeAt v1).y && (m.nodeAt v0).y.ceq (m.nodeAt v3).y)
      || ((m.nodeAt v0).y.ceq (m.nodeAt v2).y && (m.nodeAt v0).y.ceq (m.nodeAt v3).y)
      || ((m.nodeAt v1).y.ceq (m.nodeAt v2).y && (m.nodeAt v2).y.ceq (m.nodeAt v3).y)) = true then
    .error (.meshLoadFailure "vertices share y-coordinates")
  else
    let q0 := m.get_edge_node v0 v1
    let q1 := q0.1.get_edge_node v1 v2
    let q2 := q1.1.get_edge_node v2 v3
    let q3 := q2.1.get_edge_node v3 v0
    let e : Element :=
      { used := true, active := true, marker := marker, nvert := 4,
        vn := [v0, v1, v2, v3], en := [q0.2, q1.2, q2.2, q3.2],
        sons := [none, none, none, none], parent := none, curved := curved,
        iro_cache := 0 }
    let m' := { q3.1 with elements := q3.1.elements ++ [e] }
    .ok (m'.ref_all_nodes e, eid)

/-- Set boundary flag and marker of a node (point update helper used by the
refinement routines' "set correct boundary status and markers" blocks). -/
def Mesh.setEnBndMarker (m : Mesh) (nid : Nat) (b mk : Int) : Mesh :=
  m.setNodeF nid fun nd => { nd with bnd := b, marker := mk }

/-- Set only the boundary flag of a node (used for mid-edge vertex nodes). -/
def Mesh.setVnBnd (m : Mesh) (nid : Nat) (b : Int) : Mesh :=
  m.setNodeF nid fun nd => { nd with bnd := b }

/-- `Mesh::refine_triangle_to_triangles`: split a triangle into four triangles
via three mid-edge vertex nodes.  Curved-geometry coordinate adjustment
(`CurvMap::get_mid_edge_points`) is external code and is not modelled; son
elements inherit the parent's curvature flag. -/
def Mesh.refine_triangle_to_triangles (m : Mesh) (eid : Nat) :
    Except HErr Mesh :=
  let e := m.elemAt eid
  -- remember the markers of the edge nodes
  let b0 := (m.nodeAt (e.enAt 0)).bnd
  let b1 := (m.nodeAt (e.enAt 1)).bnd
  let b2 := (m.nodeAt (e.enAt 2)).bnd
  let k0 := (m.nodeAt (e.enAt 0)).marker
  let k1 := (m.nodeAt (e.enAt 1)).marker
  let k2 := (m.nodeAt (e.enAt 2)).marker
  -- obtain three mid-edge vertex nodes
  let q0 := m.get_vertex_node (e.vnAt 0) (e.vnAt 1)
  let x0 := q0.2
  let q1 := q0.1.get_vertex_node (e.vnAt 1) (e.vnAt 2)
  let x1 := q1.2
  let q2 := q1.1.get_vertex_node (e.vnAt 2) (e.vnAt 0)
  let x2 := q2.2
  -- create the four sons
  match q2.1.create_triangle e.marker (e.vnAt 0) x0 x2 e.curved with
  | .error er => .error er
  | .ok (m1, s0) =>
  match m1.create_triangle e.marker x0 (e.vnAt 1) x1 e.curved with
  | .error er => .error er
  | .ok (m2, s1) =>
  match m2.create_triangle e.marker x2 x1 (e.vnAt 2) e.curved with
  | .error er => .error er
  | .ok (m3, s2) =>
  match m3.create_triangle e.marker x1 x2 x0 e.curved with
  | .error er => .error er
  | .ok (m4, s3) =>
    -- deactivate this element and unregister from its nodes
    let m5 := m4.setElemF eid fun p => { p with active := false }
    let m5 := { m5 with nactive := m5.nactive + 3 }
    let m5 := m5.unref_all_nodes e
    -- set correct boundary status and markers for the new nodes
    let m6 := m5.setEnBndMarker ((m5.elemAt s0).enAt 0) b0 k0
    let m6 := m6.setEnBndMarker ((m6.elemAt s0).enAt 2) b2 k2
    let m6 := m6.setEnBndMarker ((m6.elemAt s1).enAt 0) b0 k0
    let m6 := m6.setEnBndMarker ((m6.elemAt s1).enAt 1) b1 k1
    let m6 := m6.setEnBndMarker ((m6.elemAt s2).enAt 1) b1 k1
    let m6 := m6.setEnBndMarker ((m6.elemAt s2).enAt 2) b2 k2
    let m6 := m6.setVnBnd ((m6.elemAt s3).vnAt 0) b1
    let m6 := m6.setVnBnd ((m6.elemAt s3).vnAt 1) b2
    let m6 := m6.setVnBnd ((m6.elemAt s3).vnAt 2) b0
    -- set pointers to parent element for sons, then copy son pointers
    let m7 := [s0, s1, s2, s3].foldl
      (fun acc s => acc.setElemF s fun p => { p with parent := some eid }) m6
    .ok (m7.setElemF eid fun p =>
      { p with sons := [some s0, some s1, some s2, some s3] })

/-- One iteration of the "set correct boundary markers for the new edge
nodes" loop of `Mesh::refine_quad`'s four-son case: son `i` receives the
parent's boundary data on its edges `j = (i+3) % 4` and `i`, and its mid-edge
vertex `j` the boundary flag. -/
def quadMarkerStep (bnds mrks : List Int) (sids : List Nat) (acc : Mesh)
    (i : Nat) : Mesh :=
  let j := if i > 0 then i - 1 else 3
  let sid := sids.getD i 0
  let acc := acc.setEnBndMarker ((acc.elemAt sid).enAt j)
    (bnds.getD j 0) (mrks.getD j 0)
  let acc := acc.setEnBndMarker ((acc.elemAt sid).enAt i)
    (bnds.getD i 0) (mrks.getD i 0)
  acc.setVnBnd ((acc.elemAt sid).vnAt j) (bnds.getD j 0)

/-- `Mesh::refine_quad`: split a quad into four quads (`refinement = 0`), two
"horizontal" quads (`1`) or two "vertical" quads (`2`); any other kind hits
the source's `assert(0)`, modelled as an error.  Curved-geometry coordinate
adjustment is external code and is not modelled; sons inherit the curvature
flag. -/
def Mesh.refine_quad (m : Mesh) (eid : Nat) (refinement : Int) :
    Except HErr Mesh :=
  let e := m.elemAt eid
  -- remember the markers of the edge nodes
  let b0 := (m.nodeAt (e.enAt 0)).bnd
  let b1 := (m.nodeAt (e.enAt 1)).bnd
  let b2 := (m.nodeAt (e.enAt 2)).bnd
  let b3 := (m.nodeAt (e.enAt 3)).bnd
  let k0 := (m.nodeAt (e.enAt 0)).marker
  let k1 := (m.nodeAt (e.enAt 1)).marker
  let k2 := (m.nodeAt (e.enAt 2)).marker
  let k3 := (m.nodeAt (e.enAt 3)).marker
  -- deactivate this element and unregister from its nodes
  let m0 := m.setElemF eid fun p => { p with active := false }
  let m0 := { m0 with nactive := m0.nactive - 1 }
  let m0 := m0.unref_all_nodes e
  if refinement = 0 then
    -- obtain four mid-edge vertex nodes and one mid-element vertex node
    let q0 := m0.get_vertex_node (e.vnAt 0) (e.vnAt 1)
    let x0 := q0.2
    let q1 := q0.1.get_vertex_node (e.vnAt 1) (e.vnAt 2)
    let x1 := q1.2
    let q2 := q1.1.get_vertex_node (e.vnAt 2) (e.vnAt 3)
    let x2 := q2.2
    let q3 := q2.1.get_vertex_node (e.vnAt 3) (e.vnAt 0)
    let x3 := q3.2
    let qm := q3.1.get_vertex_node x0 x2
    let mid := qm.2
    -- create the four sons
    match qm.1.create_quad e.marker (e.vnAt 0) x0 mid x3 e.curved with
    | .error er => .error er
    | .ok (m1, s0) =>
    match m1.create_quad e.marker x0 (e.vnAt 1) x1 mid e.curved with
    | .error er => .error er
    | .ok (m2, s1) =>
    match m2.create_quad e.marker mid x1 (e.vnAt 2) x2 e.curved with
    | .error er => .error er
    | .ok (m3, s2) =>
    match m3.create_quad e.marker x3 mid x2 (e.vnAt 3) e.curved with
    | .error er => .error er
    | .ok (m4, s3) =>
      -- increase the number of active elements by 4
      let m5 := { m4 with nactive := m4.nactive + 4 }
      -- set correct boundary markers for the new edge nodes
      let m6 := (List.range 4).foldl
        (quadMarkerStep [b0, b1, b2, b3] [k0, k1, k2, k3] [s0, s1, s2, s3]) m5
      let m7 := [s0, s1, s2, s3].foldl
        (fun acc s => acc.setElemF s fun p => { p with parent := some eid }) m6
      .ok (m7.setElemF eid fun p =>
        { p with sons := [some s0, some s1, some s2, some s3] })
  else if refinement = 1 then
    -- refinement '1': one quad to two 'horizontal' quads
    let q1 := m0.get_vertex_node (e.vnAt 1) (e.vnAt 2)
    let x1 := q1.2
    let q3 := q1.1.get_vertex_node (e.vnAt 3) (e.vnAt 0)
    let x3 := q3.2
    match q3.1.create_quad e.marker (e.vnAt 0) (e.vnAt 1) x1 x3 e.curved with
    | .error er => .error er
    | .ok (m1, s0) =>
    match m1.create_quad e.marker x3 x1 (e.vnAt 2) (e.vnAt 3) e.curved with
    | .error er => .error er
    | .ok (m2, s1) =>
      let m3 := { m2 with nactive := m2.nactive + 2 }
      let m4 := m3.setEnBndMarker ((m3.elemAt s0).enAt 0) b0 k0
      let m4 := m4.setEnBndMarker ((m4.elemAt s0).enAt 1) b1 k1
      let m4 := m4.setEnBndMarker ((m4.elemAt s0).enAt 3) b3 k3
      let m4 := m4.setEnBndMarker ((m4.elemAt s1).enAt 1) b1 k1
      let m4 := m4.setEnBndMarker ((m4.elemAt s1).enAt 2) b2 k2
      let m4 := m4.setEnBndMarker ((m4.elemAt s1).enAt 3) b3 k3
      let m4 := m4.setVnBnd ((m4.elemAt s0).vnAt 2) b1
      let m4 := m4.setVnBnd ((m4.elemAt s0).vnAt 3) b3
      let m5 := [s0, s1].foldl
        (fun acc s => acc.setElemF s fun p => { p with parent := some eid }) m4
      .ok (m5.setElemF eid fun p =>
        { p with sons := [some s0, some s1, none, none] })
  else if refinement = 2 then
    -- refinement '2': one quad to two 'vertical' quads
    let q0 := m0.get_vertex_node (e.vnAt 0) (e.vnAt 1)
    let x0 := q0.2
    let q2 := q0.1.get_vertex_node (e.vnAt 2) (e.vnAt 3)
    let x2 := q2.2
    match q2.1.create_quad e.marker (e.vnAt 0) x0 x2 (e.vnAt 3) e.curved with
    | .error er => .error er
    | .ok (m1, s2) =>
    match m1.create_quad e.marker x0 (e.vnAt 1) (e.vnAt 2) x2 e.curved with
    | .error er => .error er
    | .ok (m2, s3) =>
      let m3 := { m2 with nactive := m2.nactive + 2 }
      let m4 := m3.setEnBndMarker ((m3.elemAt s2).enAt 0) b0 k0
      let m4 := m4.setEnBndMarker ((m4.elemAt s2).enAt 2) b2 k2
      let m4 := m4.setEnBndMarker ((m4.elemAt s2).enAt 3) b3 k3
      let m4 := m4.setEnBndMarker ((m4.elemAt s3).enAt 0) b0 k0
      let m4 := m4.setEnBndMarker ((m4.elemAt s3).enAt 1) b1 k1
      let m4 := m4.setEnBndMarker ((m4.elemAt s3).enAt 2) b2 k2
      let m4 := m4.setVnBnd ((m4.elemAt s2).vnAt 1) b0
      let m4 := m4.setVnBnd ((m4.elemAt s2).vnAt 2) b2
      let m5 := [s2, s3].foldl
        (fun acc s => acc.setElemF s fun p => { p with parent := some eid }) m4
      .ok (m5.setElemF eid fun p =>
        { p with sons := [none, none, some s2, some s3] })
  else
    .error (.generalException "assert(0) in refine_quad")

/-- `Mesh::refine_triangle_to_quads`: split a triangle into three quads via
three mid-edge vertex nodes and one gravity-center vertex node (keyed, as in
the source, by the pair `(x0, vn[1])`, then moved to the centroid of the three
mid-edge nodes).  Curved-geometry handling (`CurvMap`/`Arc` construction) is
external code and is not modelled; sons inherit the curvature flag. -/
def Mesh.refine_triangle_to_quads (m : Mesh) (eid : Nat) :
    Except HErr Mesh :=
  let e := m.elemAt eid
  -- remember the markers of the edge nodes
  let b0 := (m.nodeAt (e.enAt 0)).bnd
  let b1 := (m.nodeAt (e.enAt 1)).bnd
  let b2 := (m.nodeAt (e.enAt 2)).bnd
  let k0 := (m.nodeAt (e.enAt 0)).marker
  let k1 := (m.nodeAt (e.enAt 1)).marker
  let k2 := (m.nodeAt (e.enAt 2)).marker
  -- obtain three mid-edge and one gravity vertex nodes
  let q0 := m.get_vertex_node (e.vnAt 0) (e.vnAt 1)
  let x0 := q0.2
  let q1 := q0.1.get_vertex_node (e.vnAt 1) (e.vnAt 2)
  let x1 := q1.2
  let q2 := q1.1.get_vertex_node (e.vnAt 2) (e.vnAt 0)
  let x2 := q2.2
  let qm := q2.1.get_vertex_node x0 (e.vnAt 1)
  let mid := qm.2
  let mg := qm.1
  let mg := mg.setNodeF mid fun nd =>
    { nd with
        x := (((mg.nodeAt x0).x.add (mg.nodeAt x1).x).add (mg.nodeAt x2).x).thirdOf,
        y := (((mg.nodeAt x0).y.add (mg.nodeAt x1).y).add (mg.nodeAt x2).y).thirdOf }
  -- create the three sons
  match mg.create_quad e.marker (e.vnAt 0) x0 mid x2 e.curved with
  | .error er => .error er
  | .ok (m1, s0) =>
  match m1.create_quad e.marker x0 (e.vnAt 1) x1 mid e.curved with
  | .error er => .error er
  | .ok (m2, s1) =>
  match m2.create_quad e.marker x1 (e.vnAt 2) x2 mid e.curved with
  | .error er => .error er
  | .ok (m3, s2) =>
    -- deactivate this element and unregister from its nodes
    let m4 := m3.setElemF eid fun p => { p with active := false }
    let m4 := { m4 with nactive := m4.nactive + 2 }
    let m4 := m4.unref_all_nodes e
    -- set correct boundary status and markers for the new nodes
    let m5 := m4.setEnBndMarker ((m4.elemAt s0).enAt 0) b0 k0
    let m5 := m5.setEnBndMarker ((m5.elemAt s0).enAt 3) b2 k2
    let m5 := m5.setEnBndMarker ((m5.elemAt s1).enAt 0) b0 k0
    let m5 := m5.setEnBndMarker ((m5.elemAt s1).enAt 1) b1 k1
    let m5 := m5.setEnBndMarker ((m5.elemAt s2).enAt 0) b1 k1
    let m5 := m5.setEnBndMarker ((m5.elemAt s2).enAt 1) b2 k2
    -- set pointers to parent element for sons, then copy son pointers
    let m6 := [s0, s1, s2].foldl
      (fun acc s => acc.setElemF s fun p => { p with parent := some eid }) m5
    .ok (m6.setElemF eid fun p =>
      { p with sons := [some s0, some s1, some s2, none] })

/-- One iteration of `refine_element`'s son loop propagating the parent's
`iro_cache` to son slot `i`. -/
def iroStep (eid : Nat) (ic : Int) (acc : Mesh) (i : Nat) : Mesh :=
  match (acc.elemAt eid).sonAt i with
  | some s => acc.setElemF s fun p => { p with iro_cache := ic }
  | none => acc

/-- `Mesh::refine_element`: append the refinement log entry, dispatch to the
shape-specific split, propagate the parent's `iro_cache` to the sons and bump
the sequence number. -/
def Mesh.refine_element (m : Mesh) (eid : Nat) (refinement : Int) :
    Except HErr Mesh :=
  let m := { m with refinements := m.refinements ++ [(eid, refinement)] }
  let e := m.elemAt eid
  let r :=
    if e.is_triangle then
      if refinement = 3 then m.refine_triangle_to_quads eid
      else m.refine_triangle_to_triangles eid
    else m.refine_quad eid refinement
  match r with
  | .error er => .error er
  | .ok m' =>
    let m'' := (List.range 4).foldl (iroStep eid e.iro_cache) m'
    .ok { m'' with seq := m''.seq + 1 }

/-- `Mesh::get_element`: bounds-checked element access; returns the index, or
an invalid-id exception for an out-of-range id. -/
def Mesh.get_element (m : Mesh) (id : Int) : Except HErr Nat :=
  if id < 0 ∨ (m.elements.length : Int) ≤ id then
    .error (.generalException "Invalid element ID")
  else .ok id.toNat

/-- `Mesh::refine_element_id`: refinement kind `-1` returns immediately
(before any validation); otherwise the id is bounds-checked, the element must
be used and must still be active. -/
def Mesh.refine_element_id (m : Mesh) (id : Int) (refinement : Int) :
    Except HErr Mesh :=
  if refinement = -1 then .ok m
  else
    match m.get_element id with
    | .error er => .error er
    | .ok eid =>
      if (m.elemAt eid).used = false then
        .error (.generalException "Invalid element id number.")
      else if (m.elemAt eid).active = false then
        .error (.generalException
          "Attempt to refine an element which has been refined already.")
      else m.refine_element eid refinement

/-- `Mesh::get_num_active_elements` (its `seq < 0` guard is dead for the
unsigned sequence number). -/
def Mesh.get_num_active_elements (m : Mesh) : Int := m.nactive

/-- Modelled from the spec (`MeshUtil::get_edge_sons` of `mesh_util.cpp` is
not among the given sources): for an inactive element, the pair of son indices
adjacent to local edge `i`, determined by the son layout of each split visible
in `mesh.cpp` — four sons: sons `i` and `i+1`; a quad's two horizontal sons
(slots 0, 1): edge 0 lies on son 0, edge 2 on son 1, edges 1 and 3 on both; a
quad's two vertical sons (slots 2, 3): edge 1 lies on son 3, edge 3 on son 2,
edges 0 and 2 on both; a triangle's three quad sons: sons `i` and
`(i+1) % 3`. -/
def Element.get_edge_sons (e : Element) (i : Nat) : Nat × Nat :=
  if e.is_triangle then
    if e.sonAt 3 = none then (i, (i + 1) % 3)
    else (i, (i + 1) % 3)
  else
    if e.sonAt 2 = none then
      if i = 0 then (0, 0) else if i = 2 then (1, 1) else (0, 1)
    else if e.sonAt 0 = none then
      if i = 1 then (3, 3) else if i = 3 then (2, 2) else (2, 3)
    else (i, (i + 1) % 4)

/-- One iteration of `unrefine_element_internal`'s son-removal loop: release
son slot `i` (if present): unregister its nodes, mark it unused and decrement
the active count. -/
def sonRemoveStep (e : Element) (acc : Mesh) (i : Nat) : Mesh :=
  match e.sonAt i with
  | none => acc
  | some sid =>
    let acc := acc.unref_all_nodes (acc.elemAt sid)
    let acc := acc.setElemF sid fun p => { p with used := false }
    { acc with nactive := acc.nactive - 1 }

/-- One iteration of `unrefine_element_internal`'s edge-node recreation loop:
look up (or insert) the edge node of local edge `i` and append its id. -/
def enRecreateStep (e : Element) (acc : Mesh × List Nat) (i : Nat) :
    Mesh × List Nat :=
  let q := acc.1.get_edge_node (e.vnAt i) (e.vnAt (e.next_vert i))
  (q.1, acc.2 ++ [q.2])

/-- One iteration of `unrefine_element_internal`'s marker-restoration loop:
write the remembered boundary flag and marker back onto recreated edge node
`i`. -/
def markerRestoreStep (newEn : List Nat) (marks : List (Int × Int))
    (acc : Mesh) (i : Nat) : Mesh :=
  acc.setEnBndMarker (newEn.getD i 0) ((marks.getD i (0, 0)).2)
    ((marks.getD i (0, 0)).1)

/-- `Mesh::unrefine_element_internal`: log the derefinement, read the boundary
markers/flags off the sons adjacent to each edge, remove all sons, recreate
the element's edge nodes, re-reference its nodes, reactivate it and restore
the markers/flags onto the recreated edge nodes.  The source's `assert`s
(element inactive, adjacent son active, son slot non-null) are modelled as
errors. -/
def Mesh.unrefine_element_internal (m : Mesh) (eid : Nat) : Except HErr Mesh :=
  let m := { m with refinements := m.refinements ++ [(eid, -1)] }
  let e := m.elemAt eid
  if e.active then
    .error (.generalException "assert(!e->active) in unrefine_element_internal")
  else
    -- obtain markers and bnds from son elements
    match mapE (fun i =>
      let s1 := (e.get_edge_sons i).1
      match e.sonAt s1 with
      | none => .error (.generalException "null son in unrefine_element_internal")
      | some sid =>
        let son := m.elemAt sid
        if son.active = false then
          .error (.generalException
            "assert(e->sons[s1]->active) in unrefine_element_internal")
        else
          .ok ((m.nodeAt (son.enAt i)).marker, (m.nodeAt (son.enAt i)).bnd))
      (List.range e.nvert) with
    | .error er => .error er
    | .ok marks =>
      -- remove all sons
      let m1 := (List.range 4).foldl (sonRemoveStep e) m
      -- recreate edge nodes
      let r := (List.range e.nvert).foldl (enRecreateStep e) (m1, [])
      let m2 := r.1
      let newEn := r.2
      -- the union slots previously holding the sons hold edge nodes again
      let m3 := m2.setElemF eid fun p =>
        { p with en := newEn, sons := [none, none, none, none] }
      let m4 := m3.ref_all_nodes (m3.elemAt eid)
      let m5 := m4.setElemF eid fun p => { p with active := true }
      let m5 := { m5 with nactive := m5.nactive + 1 }
      -- restore edge node markers and bnds
      .ok ((List.range e.nvert).foldl (markerRestoreStep newEn marks) m5)

/-- `Mesh::unrefine_element_id`: bounds-check the id, require the element
used; an active element is a no-op; otherwise derefine all sons recursively,
then the element itself, and bump the sequence number.  The C++ recursion over
the son tree is modelled with explicit fuel. -/
def Mesh.unrefine_element_id (fuel : Nat) (m : Mesh) (id : Int) :
    Except HErr Mesh :=
  match fuel with
  | 0 => .error .fuelExhausted
  | fuel + 1 =>
    match m.get_element id with
    | .error er => .error er
    | .ok eid =>
      if (m.elemAt eid).used = false then
        .error (.generalException "Invalid element id number.")
      else if (m.elemAt eid).active then .ok m
      else
        match foldE (fun acc i =>
          match (acc.elemAt eid).sonAt i with
          | none => .ok acc
          | some sid => Mesh.unrefine_element_id fuel acc (sid : Int))
          m (List.range 4) with
        | .error er => .error er
        | .ok m1 =>
          match m1.unrefine_element_internal eid with
          | .error er => .error er
          | .ok m2 => .ok { m2 with seq := m2.seq + 1 }

/-- The empty mesh. -/
def Mesh.empty : Mesh :=
  { nodes := [], elements := [], nbase := 0, nactive := 0, ntopvert := 0,
    ninitial := 0, seq := 0, refinements := [] }

/-- `Mesh::create` (bulk bootstrap from flat arrays): create the top-level
vertex nodes (with `TOP_LEVEL_REF` reference counts), the triangles and
quads, then set boundary markers on the listed boundary edges (failing if a
listed edge does not exist).  Marker-string translation is a collaborator
interface (spec §6) and markers are taken here as their translated
integers. -/
def Mesh.create (verts : List (Coord × Coord))
    (tris : List ((Nat × Nat × Nat) × Int))
    (quads : List ((Nat × Nat × Nat × Nat) × Int))
    (marks : List ((Nat × Nat) × Int)) : Except HErr Mesh :=
  let m0 : Mesh :=
    { nodes := verts.map (fun v =>
        { used := true, type := .vertex, ref := TOP_LEVEL_REF, bnd := 0,
          p1 := -1, p2 := -1, x := v.1, y := v.2, marker := 0 }),
      elements := [], nbase := 0, nactive := 0,
      ntopvert := verts.length, ninitial := 0, seq := 0, refinements := [] }
  match foldE (fun (acc : Mesh) t =>
      match acc.create_triangle t.2 t.1.1 t.1.2.1 t.1.2.2 false with
      | .error er => .error er
      | .ok r => .ok r.1) m0 tris with
  | .error er => .error er
  | .ok m1 =>
  match foldE (fun (acc : Mesh) q =>
      match acc.create_quad q.2 q.1.1 q.1.2.1 q.1.2.2.1 q.1.2.2.2 false with
      | .error er => .error er
      | .ok r => .ok r.1) m1 quads with
  | .error er => .error er
  | .ok m2 =>
  match foldE (fun (acc : Mesh) mk =>
      match acc.peek_edge_node mk.1.1 mk.1.2 with
      | none => .error (.generalException "Boundary data error (edge does not exist)")
      | some en =>
        let acc := acc.setNodeF en fun nd => { nd with marker := mk.2, bnd := 1 }
        let acc := acc.setNodeF mk.1.1 fun nd => { nd with bnd := 1 }
        let acc := acc.setNodeF mk.1.2 fun nd => { nd with bnd := 1 }
        .ok acc) m2 marks with
  | .error er => .error er
  | .ok m3 =>
    let n : Int := tris.length + quads.length
    .ok { m3 with nbase := n, nactive := n, ninitial := n, seq := m3.seq + 1 }

/-- Fuel-indexed unfolding of the recursive `Mesh::get_edge_degree`: `0` when
no vertex node splits the edge, else `1 + max` of the degrees of the two
half-edges. -/
def edgeDegreeAux (m : Mesh) : Nat → Nat → Nat → Nat
  | 0, _, _ => 0
  | fuel + 1, v1, v2 =>
    match m.peek_vertex_node v1 v2 with
    | none => 0
    | some v3 => 1 + max (edgeDegreeAux m fuel v1 v3) (edgeDegreeAux m fuel v3 v2)

/-- `Mesh::get_edge_degree`.  The C++ recursion carries no fuel; the model's
fuel `2 * |nodes| + 1` is sufficient for every mesh whose vertex-node keys
refer to older (smaller-id) nodes, which the node-creation discipline
maintains; see the fuel-independence theorem for claim C2. -/
def Mesh.get_edge_degree (m : Mesh) (v1 v2 : Nat) : Nat :=
  edgeDegreeAux m (2 * m.nodes.length + 1) v1 v2

/-- `Mesh::assign_parent`: copy the parent's entry of the regularization
parent-id array onto son slot `i` of element `eid`, growing the array
(doubling, as the `realloc`) when the son's id is beyond its size.  Entries
never written are `none`, modelling the `malloc`ed array's indeterminate
initial contents. -/
def assign_parent (m : Mesh) (par : List (Option Int)) (eid i : Nat) :
    List (Option Int) :=
  match (m.elemAt eid).sonAt i with
  | none => par
  | some s =>
    let par := if par.length ≤ s then par ++ List.replicate par.length none else par
    par.set s (par.getD eid none)

/-- The common "store id of parent" tail of `regularize_triangle` and
`regularize_quad`: when the element ended up inactive, record the parent ids
of all its son slots. -/
def storeParentIds (m' : Mesh) (par : List (Option Int)) (eid : Nat) :
    List (Option Int) :=
  if ¬(m'.elemAt eid).active then
    (List.range 4).foldl (fun acc i => assign_parent m' acc eid i) par
  else par

/-- `Mesh::regularize_triangle`: the 1-level-balancing post-pass for a
triangle.  With hanging-node degrees `eo` on the three edges: degree sum 3
refines isotropically (`refine_element_id` with its default kind 0); sum 1
splits into two same-level triangles; sum 2 into three; afterwards the parent
ids of any new sons are recorded.  The source's null mid-vertex dereferences
(impossible after 1-level balancing) are modelled as errors. -/
def Mesh.regularize_triangle (m : Mesh) (par : List (Option Int)) (eid : Nat) :
    Except HErr (Mesh × List (Option Int)) :=
  let e := m.elemAt eid
  let eo0 := m.get_edge_degree (e.vnAt 0) (e.vnAt 1)
  let eo1 := m.get_edge_degree (e.vnAt 1) (e.vnAt 2)
  let eo2 := m.get_edge_degree (e.vnAt 2) (e.vnAt 0)
  let sum := eo0 + eo1 + eo2
  let r :=
    if sum = 3 then m.refine_element_id (eid : Int) 0
    else if 0 < sum then
      -- remember the markers of the edge nodes
      let b := fun i => (m.nodeAt (e.enAt i)).bnd
      let mk := fun i => (m.nodeAt (e.enAt i)).marker
      if sum = 1 then
        let k := (List.range 3).foldl
          (fun acc i => if [eo0, eo1, eo2].getD i 0 = 1 then i else acc) 0
        let k1 := e.next_vert k
        let k2 := e.prev_vert k
        match m.peek_vertex_node (e.vnAt k) (e.vnAt k1) with
        | none => .error (.generalException "null mid vertex in regularize_triangle")
        | some v4 =>
          let m0 := m.setElemF eid fun p => { p with active := false }
          let m0 := { m0 with nactive := m0.nactive + 1 }
          let m0 := m0.unref_all_nodes e
          match m0.create_triangle e.marker (e.vnAt k) v4 (e.vnAt k2) false with
          | .error er => .error er
          | .ok (ma, t0) =>
          match ma.create_triangle e.marker v4 (e.vnAt k1) (e.vnAt k2) false with
          | .error er => .error er
          | .ok (mb, t1) =>
            let mc := mb.setEnBndMarker ((mb.elemAt t0).enAt 2) (b k2) (mk k2)
            let mc := mc.setEnBndMarker ((mc.elemAt t1).enAt 1) (b k1) (mk k1)
            .ok (mc.setElemF eid fun p =>
              { p with sons := [some t0, some t1, none, none] })
      else if sum = 2 then
        let k := (List.range 3).foldl
          (fun acc i => if [eo0, eo1, eo2].getD i 0 = 0 then i else acc) 0
        let k1 := e.next_vert k
        let k2 := e.prev_vert k
        match m.peek_vertex_node (e.vnAt k1) (e.vnAt k2),
              m.peek_vertex_node (e.vnAt k2) (e.vnAt k) with
        | some v4, some v5 =>
          let m0 := m.setElemF eid fun p => { p with active := false }
          let m0 := { m0 with nactive := m0.nactive + 2 }
          let m0 := m0.unref_all_nodes e
          match m0.create_triangle e.marker (e.vnAt k) (e.vnAt k1) v4 false with
          | .error er => .error er
          | .ok (ma, t0) =>
          match ma.create_triangle e.marker v4 v5 (e.vnAt k) false with
          | .error er => .error er
          | .ok (mb, t1) =>
          match mb.create_triangle e.marker v4 (e.vnAt k2) v5 false with
          | .error er => .error er
          | .ok (mc, t2) =>
            let md := mc.setEnBndMarker ((mc.elemAt t0).enAt 0) (b k) (mk k)
            .ok (md.setElemF eid fun p =>
              { p with sons := [some t0, some t1, some t2, none] })
        | _, _ => .error (.generalException "null mid vertex in regularize_triangle")
      else .ok m
    else .ok m
  match r with
  | .error er => .error er
  | .ok m' => .ok (m', storeParentIds m' par eid)

/-- `Mesh::regularize_quad`: the 1-level-balancing post-pass for a quad.  With
hanging-node degrees `eo` on the four edges: sum 4 refines isotropically; sum
1 splits into three same-level triangles; sum 2 splits anisotropically when
the two hanging edges are opposite, else into four triangles; sum 3 splits
anisotropically and recurses into the two sons (the recursion is modelled
with explicit fuel).  Null-son / null mid-vertex dereferences of the source
(impossible after 1-level balancing) are modelled as errors. -/
def Mesh.regularize_quad (fuel : Nat) (m : Mesh) (par : List (Option Int))
    (eid : Nat) : Except HErr (Mesh × List (Option Int)) :=
  match fuel with
  | 0 => .error .fuelExhausted
  | fuel + 1 =>
    let e := m.elemAt eid
    let eo0 := m.get_edge_degree (e.vnAt 0) (e.vnAt 1)
    let eo1 := m.get_edge_degree (e.vnAt 1) (e.vnAt 2)
    let eo2 := m.get_edge_degree (e.vnAt 2) (e.vnAt 3)
    let eo3 := m.get_edge_degree (e.vnAt 3) (e.vnAt 0)
    let sum := eo0 + eo1 + eo2 + eo3
    let r :=
      if sum = 4 then
        match m.refine_element_id (eid : Int) 0 with
        | .error er => .error er
        | .ok m' => .ok (m', par)
      else if 0 < sum then
        -- remember the markers of the edge nodes
        let b := fun i => (m.nodeAt (e.enAt i)).bnd
        let mk := fun i => (m.nodeAt (e.enAt i)).marker
        if sum = 1 then
          let k := (List.range 4).foldl
            (fun acc i => if [eo0, eo1, eo2, eo3].getD i 0 = 1 then i else acc) 0
          let k1 := e.next_vert k
          let k2 := e.next_vert k1
          let k3 := e.prev_vert k
          match m.peek_vertex_node (e.vnAt k) (e.vnAt k1) with
          | none => .error (.generalException "null mid vertex in regularize_quad")
          | some v4 =>
            let m0 := m.setElemF eid fun p => { p with active := false }
            let m0 := { m0 with nactive := m0.nactive + 2 }
            let m0 := m0.unref_all_nodes e
            match m0.create_triangle e.marker (e.vnAt k) v4 (e.vnAt k3) false with
            | .error er => .error er
            | .ok (ma, t0) =>
            match ma.create_triangle e.marker v4 (e.vnAt k1) (e.vnAt k2) false with
            | .error er => .error er
            | .ok (mb, t1) =>
            match mb.create_triangle e.marker v4 (e.vnAt k2) (e.vnAt k3) false with
            | .error er => .error er
            | .ok (mc, t2) =>
              let md := mc.setEnBndMarker ((mc.elemAt t0).enAt 2) (b k3) (mk k3)
              let md := md.setEnBndMarker ((md.elemAt t1).enAt 1) (b k1) (mk k1)
              let md := md.setEnBndMarker ((md.elemAt t2).enAt 1) (b k2) (mk k2)
              .ok (md.setElemF eid fun p =>
                { p with sons := [some t0, some t1, some t2, none] }, par)
        else if sum = 2 then
          if eo0 = 1 ∧ eo2 = 1 then
            match m.refine_element_id (eid : Int) 2 with
            | .error er => .error er
            | .ok m' => .ok (m', par)
          else if eo1 = 1 ∧ eo3 = 1 then
            match m.refine_element_id (eid : Int) 1 with
            | .error er => .error er
            | .ok m' => .ok (m', par)
          else
            -- two hanging nodes next to each other
            let k := (List.range 4).foldl (fun acc i =>
              if [eo0, eo1, eo2, eo3].getD i 0 = 1
                  ∧ [eo0, eo1, eo2, eo3].getD (e.next_vert i) 0 = 1 then i
              else acc) 0
            let k1 := e.next_vert k
            let k2 := e.next_vert k1
            let k3 := e.prev_vert k
            match m.peek_vertex_node (e.vnAt k) (e.vnAt k1),
                  m.peek_vertex_node (e.vnAt k1) (e.vnAt k2) with
            | some v4, some v5 =>
              let m0 := m.setElemF eid fun p => { p with active := false }
              let m0 := { m0 with nactive := m0.nactive + 3 }
              let m0 := m0.unref_all_nodes e
              match m0.create_triangle e.marker (e.vnAt k1) v5 v4 false with
              | .error er => .error er
              | .ok (ma, t0) =>
              match ma.create_triangle e.marker v5 (e.vnAt k2) (e.vnAt k3) false with
              | .error er => .error er
              | .ok (mb, t1) =>
              match mb.create_triangle e.marker v4 v5 (e.vnAt k3) false with
              | .error er => .error er
              | .ok (mc, t2) =>
              match mc.create_triangle e.marker v4 (e.vnAt k3) (e.vnAt k) false with
              | .error er => .error er
              | .ok (md, t3) =>
                let me := md.setEnBndMarker ((md.elemAt t1).enAt 1) (b k2) (mk k2)
                let me := me.setEnBndMarker ((me.elemAt t3).enAt 1) (b k3) (mk k3)
                .ok (me.setElemF eid fun p =>
                  { p with sons := [some t0, some t1, some t2, some t3] }, par)
            | _, _ => .error (.generalException "null mid vertex in regularize_quad")
        else
          -- sum = 3 (an out-of-range degree pattern falls through to the
          -- recursion on son slots 0 and 0, as the source's uninitialized
          -- `n`, `m` indices would)
          if eo0 = 1 ∧ eo2 = 1 then
            match m.refine_element_id (eid : Int) 2 with
            | .error er => .error er
            | .ok m' =>
              let par' := (List.range 4).foldl
                (fun acc i => assign_parent m' acc eid i) par
              regQuadSons fuel m' par' eid 2 3
          else if eo1 = 1 ∧ eo3 = 1 then
            match m.refine_element_id (eid : Int) 1 with
            | .error er => .error er
            | .ok m' =>
              let par' := (List.range 4).foldl
                (fun acc i => assign_parent m' acc eid i) par
              regQuadSons fuel m' par' eid 0 1
          else
            regQuadSons fuel m par eid 0 0
      else .ok (m, par)
    match r with
    | .error er => .error er
    | .ok r' => .ok (r'.1, storeParentIds r'.1 r'.2 eid)
where
  /-- The recursive `regularize_quad(e->sons[a]); regularize_quad(e->sons[b])`
  tail of the sum-3 case. -/
  regQuadSons (fuel : Nat) (m : Mesh) (par : List (Option Int))
      (eid a b : Nat) : Except HErr (Mesh × List (Option Int)) :=
    match (m.elemAt eid).sonAt a with
    | none => .error (.generalException "null son in regularize_quad")
    | some sa =>
      match Mesh.regularize_quad fuel m par sa with
      | .error er => .error er
      | .ok r =>
        match (r.1.elemAt eid).sonAt b with
        | none => .error (.generalException "null son in regularize_quad")
        | some sb => Mesh.regularize_quad fuel r.1 r.2 sb

/-- `Mesh::flatten`: compact the element store to the active elements (in id
order, renumbered densely), set `nbase` and `nactive` to their count, and
remap the regularization parent array onto the new ids.  The node-to-element
back references fixed up by the source are not part of the model. -/
def Mesh.flatten (m : Mesh) (par : List (Option Int)) :
    Mesh × List (Option Int) :=
  let ids := (List.range m.elements.length).filter
    (fun id => (m.elemAt id).used && (m.elemAt id).active)
  let newElems := ids.map m.elemAt
  let newPar := (List.range ids.length).foldl (fun acc j =>
    acc.set j (par.getD (ids.getD j 0) none)) par
  ({ m with
      elements := newElems,
      nbase := newElems.length,
      nactive := newElems.length }, newPar)

/-- The triangle branch of `Mesh::regularize`'s violation scan: kind `0` when
some edge's degree exceeds `n`, else `-1`. -/
def regTriIso (m : Mesh) (e : Element) (n : Int) : Int :=
  if (List.range e.nvert).any (fun i =>
      n < (m.get_edge_degree (e.vnAt i) (e.vnAt (e.next_vert i)) : Int)) then 0
  else -1

/-- The quad branch of `Mesh::regularize`'s violation scan: anisotropic kind
`2` (resp. `1`) when only the horizontal (resp. vertical) edge pair exceeds
`n`, else isotropic kind `0` when any edge exceeds `n`, else `-1`. -/
def regQuadIso (m : Mesh) (e : Element) (n : Int) : Int :=
  let d01 : Int := m.get_edge_degree (e.vnAt 0) (e.vnAt 1)
  let d12 : Int := m.get_edge_degree (e.vnAt 1) (e.vnAt 2)
  let d23 : Int := m.get_edge_degree (e.vnAt 2) (e.vnAt 3)
  let d30 : Int := m.get_edge_degree (e.vnAt 3) (e.vnAt 0)
  if (n < d01 ∨ n < d23) ∧ d12 ≤ n ∧ d30 ≤ n then 2
  else if d01 ≤ n ∧ d23 ≤ n ∧ (n < d12 ∨ n < d30) then 1
  else if (List.range e.nvert).any (fun i =>
      n < (m.get_edge_degree (e.vnAt i) (e.vnAt (e.next_vert i)) : Int)) then 0
  else -1

/-- State threaded through one scan of `Mesh::regularize`'s do/while loop. -/
structure RegSt where
  m : Mesh
  par : List (Option Int)
  ok : Bool
  deriving DecidableEq

/-- One element visit of `Mesh::regularize`'s scan: a used, active element
whose edge degrees violate the bound is refined with the selected kind, its
sons' parent ids are recorded, and the `ok` flag is cleared. -/
def regularizeStep (n : Int) (st : RegSt) (id : Nat) : Except HErr RegSt :=
  let e := st.m.elemAt id
  if e.used ∧ e.active then
    let iso := if e.is_triangle then regTriIso st.m e n else regQuadIso st.m e n
    if 0 ≤ iso then
      match st.m.refine_element_id (id : Int) iso with
      | .error er => .error er
      | .ok m' =>
        let par' := (List.range 4).foldl
          (fun acc i => assign_parent m' acc id i) st.par
        .ok ⟨m', par', false⟩
    else .ok st
  else .ok st

/-- One full pass of `Mesh::regularize`'s do/while loop over the element ids
present at the start of the pass (the `for_all_active_elements` bound is read
once). -/
def regularizePass (n : Int) (m : Mesh) (par : List (Option Int)) :
    Except HErr RegSt :=
  foldE (regularizeStep n) ⟨m, par, true⟩ (List.range m.elements.length)

/-- `Mesh::regularize`'s do/while loop, iterated to its fixed point (fuel
models the unproved termination of the C++ loop). -/
def regularizeLoop (n : Int) : Nat → Mesh → List (Option Int) →
    Except HErr (Mesh × List (Option Int))
  | 0, _, _ => .error .fuelExhausted
  | fuel + 1, m, par =>
    match regularizePass n m par with
    | .error er => .error er
    | .ok st =>
      if st.ok then .ok (st.m, st.par)
      else regularizeLoop n fuel st.m st.par

/-- The `reg` post-pass of `Mesh::regularize`: for every active element (ids
bounded by the element count at entry to the pass), raise the general
"Regularization of curved elements is not supported." exception on a curved
element, else run `regularize_triangle` / `regularize_quad`. -/
def Mesh.regularizePost (fuel : Nat) (m : Mesh) (par : List (Option Int)) :
    Except HErr (Mesh × List (Option Int)) :=
  foldE (fun (acc : Mesh × List (Option Int)) id =>
      let e := acc.1.elemAt id
      if e.used ∧ e.active then
        if e.is_curved then
          .error (.generalException "Regularization of curved elements is not supported.")
        else if e.is_triangle then acc.1.regularize_triangle acc.2 id
        else Mesh.regularize_quad fuel acc.1 acc.2 id
      else .ok acc) (m, par) (List.range m.elements.length)

/-- One entry initialization of the regularization parent-id array: a used
active element id is mapped to itself, anything else is skipped (left as the
`malloc`ed array's indeterminate contents). -/
def regInitStep (m : Mesh) (acc : List (Option Int)) (id : Nat) :
    List (Option Int) :=
  if (m.elemAt id).used ∧ (m.elemAt id).active then acc.set id (some (id : Int))
  else acc

/-- The parent-id array as `Mesh::regularize` allocates it: size
`2 * get_max_element_id()`, entries written only at the ids of currently
active elements (each mapped to itself); all other entries are the `malloc`ed
array's indeterminate contents, modelled as `none`. -/
def regInitParents (m : Mesh) : List (Option Int) :=
  (List.range m.elements.length).foldl (regInitStep m)
    (List.replicate (2 * m.elements.length) none)

/-- `Mesh::regularize(n)` proper: clamp `n`, run the do/while loop from the
initialized parent array, then the optional post-pass and `flatten`. -/
def Mesh.regularize (fuel : Nat) (m : Mesh) (n : Int) :
    Except HErr (Mesh × List (Option Int)) :=
  let reg := decide (n < 1)
  let n' := if n < 1 then 1 else n
  match regularizeLoop n' fuel m (regInitParents m) with
  | .error er => .error er
  | .ok r =>
    if reg then
      match r.1.regularizePost fuel r.2 with
      | .error er => .error er
      | .ok r' => .ok (Mesh.flatten r'.1 r'.2)
    else .ok r

/-! ## Concrete scenario meshes -/

/-- The unit square mesh of the specification's scenario: four vertices
`(0,0), (1,0), (1,1), (0,1)`, one quad, four boundary edges with (translated)
markers `2, 3, 4, 5`. -/
def unitSquare : Mesh :=
  (Mesh.create
    [(⟨0, 1⟩, ⟨0, 1⟩), (⟨1, 1⟩, ⟨0, 1⟩), (⟨1, 1⟩, ⟨1, 1⟩), (⟨0, 1⟩, ⟨1, 1⟩)]
    [] [((0, 1, 2, 3), 1)]
    [((0, 1), 2), ((1, 2), 3), ((2, 3), 4), ((3, 0), 5)]).toOption.getD Mesh.empty

/-- The unit square after `refine_element_id(0, 0)`. -/
def unitSquare1 : Mesh :=
  (unitSquare.refine_element_id 0 0).toOption.getD Mesh.empty

/-- A unit square whose single quad carries a curvature map. -/
def curvedSquare : Mesh :=
  { unitSquare with
      elements := unitSquare.elements.map (fun e => { e with curved := true }) }

/-! ## Theorems -/

/-- **C10.** For every mesh and every id — in or out of range, used, unused or
inactive — `refine_element_id(id, -1)` returns immediately with the mesh
unchanged (elements, nodes, counters, sequence number and refinement log all
untouched) and raises no exception: the kind `-1` short-circuits before any
validation. -/
theorem C10_refine_kind_minus_one (m : Mesh) (id : Int) :
    m.refine_element_id id (-1) = Except.ok m := by
  simp [Mesh.refine_element_id]

/-- **C9 counterexample.** The claim asserts that for *every* refinement kind,
`refine_element_id(id, kind)` raises an exception on an out-of-range id; but
at the concrete input `id = 99` (out of range for the five-element refined
unit square) with kind `-1` the call returns normally, raising nothing. -/
theorem C9_counterexample :
    Mesh.refine_element_id unitSquare1 99 (-1) = Except.ok unitSquare1
      ∧ (unitSquare1.elements.length : Int) ≤ 99 := by
  constructor
  · simp [Mesh.refine_element_id]
  · decide

/-- **C9 (amended).** For every refinement kind *other than the short-circuit
kind `-1`*, `refine_element_id(id, kind)` raises an exception when the id is
outside `[0, size)`, when the element is unused (logically deleted), or when
it is already inactive; and `get_element(id)` is bounds-checked, raising an
invalid-id exception for out-of-range ids. -/
theorem C9_refine_element_id_errors (m : Mesh) (id kind : Int)
    (hk : kind ≠ -1) :
    ((id < 0 ∨ (m.elements.length : Int) ≤ id) →
        m.refine_element_id id kind =
          Except.error (HErr.generalException "Invalid element ID")
        ∧ m.get_element id =
          Except.error (HErr.generalException "Invalid element ID"))
    ∧ (0 ≤ id → id < m.elements.length → (m.elemAt id.toNat).used = false →
        m.refine_element_id id kind =
          Except.error (HErr.generalException "Invalid element id number."))
    ∧ (0 ≤ id → id < m.elements.length → (m.elemAt id.toNat).used = true →
        (m.elemAt id.toNat).active = false →
        m.refine_element_id id kind =
          Except.error (HErr.generalException
            "Attempt to refine an element which has been refined already.")) := by
  refine ⟨fun h => ?_, fun h0 hlt hu => ?_, fun h0 hlt hu ha => ?_⟩
  · have hg : m.get_element id =
        Except.error (HErr.generalException "Invalid element ID") := by
      simp only [Mesh.get_element]
      rw [if_pos h]
    refine ⟨?_, hg⟩
    simp only [Mesh.refine_element_id, if_neg hk]
    rw [hg]
  · have hg : m.get_element id = Except.ok id.toNat := by
      simp only [Mesh.get_element]
      rw [if_neg]
      push_neg
      exact ⟨h0, hlt⟩
    simp only [Mesh.refine_element_id, if_neg hk]
    rw [hg]
    simp [hu]
  · have hg : m.get_element id = Except.ok id.toNat := by
      simp only [Mesh.get_element]
      rw [if_neg]
      push_neg
      exact ⟨h0, hlt⟩
    simp only [Mesh.refine_element_id, if_neg hk]
    rw [hg]
    simp [hu, ha]

/-- **C9 witness.** The amended theorem applied to the refined unit square
with kind `0`: id `99` is rejected as out of range. -/
theorem C9_refine_element_id_errors_witness :
    Mesh.refine_element_id unitSquare1 99 0 =
        Except.error (HErr.generalException "Invalid element ID")
      ∧ Mesh.get_element unitSquare1 99 =
        Except.error (HErr.generalException "Invalid element ID") :=
  (C9_refine_element_id_errors unitSquare1 99 0 (by decide)).1
    (by right; decide)

/-- **C6.** On the unit-square mesh, `refine_element_id(0, 0)` succeeds and
yields exactly four active quad sons (`1, 2, 3, 4` — the only active
elements), `get_num_active_elements()` goes from 1 to 4 (net leaf change +3:
parent deactivated, four sons created), and the single used vertex node at
`(1/2, 1/2)` — node 12 — appears in the vertex arrays of all four sons. -/
theorem C6_unit_square_refinement :
    unitSquare.refine_element_id 0 0 = Except.ok unitSquare1
    ∧ unitSquare.get_num_active_elements = 1
    ∧ unitSquare1.get_num_active_elements = 4
    ∧ (unitSquare1.elemAt 0).active = false
    ∧ (unitSquare1.elemAt 0).sons = [some 1, some 2, some 3, some 4]
    ∧ ([1, 2, 3, 4].all fun s =>
        (unitSquare1.elemAt s).used && (unitSquare1.elemAt s).active
          && ((unitSquare1.elemAt s).nvert == 4)) = true
    ∧ ((List.range unitSquare1.elements.length).all fun s =>
        !((unitSquare1.elemAt s).used && (unitSquare1.elemAt s).active)
          || decide (s ∈ [1, 2, 3, 4])) = true
    ∧ (unitSquare1.nodeAt 12).used = true
    ∧ (unitSquare1.nodeAt 12).type = NodeType.vertex
    ∧ (unitSquare1.nodeAt 12).x.ceq ⟨1, 2⟩ = true
    ∧ (unitSquare1.nodeAt 12).y.ceq ⟨1, 2⟩ = true
    ∧ ([1, 2, 3, 4].all fun s => (unitSquare1.elemAt s).vn.contains 12) = true
    ∧ ((List.range unitSquare1.nodes.length).all fun c =>
        !((unitSquare1.nodeAt c).used
            && (unitSquare1.nodeAt c).type == NodeType.vertex
            && (unitSquare1.nodeAt c).x.ceq ⟨1, 2⟩
            && (unitSquare1.nodeAt c).y.ceq ⟨1, 2⟩)
          || (c == 12)) = true := by
  decide

/-- The result of `regularize(1)` on the once-refined unit square. -/
def unitSquare1Reg : Mesh × List (Option Int) :=
  (Mesh.regularize 10 unitSquare1 1).toOption.getD (Mesh.empty, [])

/-- **C7 counterexample.** On the once-refined unit square, element 0 is
already inactive (derelict) before the `regularize(1)` call and still exists
afterwards, so its nearest still-existing ancestor is itself (`0`); but the
returned parent-id array's entry 0 — which is in range — was never
initialized (the `malloc`ed garbage, modelled as `none`), not `0`: the array
does *not* map ids of elements that were already inactive before the call. -/
theorem C7_counterexample :
    Mesh.regularize 10 unitSquare1 1 = Except.ok unitSquare1Reg
    ∧ (unitSquare1.elemAt 0).used = true
    ∧ (unitSquare1.elemAt 0).active = false
    ∧ (unitSquare1Reg.1.elemAt 0).used = true
    ∧ 0 < unitSquare1Reg.2.length
    ∧ unitSquare1Reg.2.getD 0 (some 0) = none := by
  decide

/-- **C8 counterexample.** On a unit square whose quad is curved,
`regularize(0)` (i.e. `n < 1`, requesting the 1-level post-pass) raises the
*general* exception `"Regularization of curved elements is not supported."` —
not a `CurvedException` carrying the offending element's id. -/
theorem C8_counterexample :
    Mesh.regularize 10 curvedSquare 0 =
      Except.error (HErr.generalException
        "Regularization of curved elements is not supported.")
    ∧ (curvedSquare.elemAt 0).curved = true := by
  decide

/-- If the fold's state is left unchanged by the first `k` items and the
`k`-th item yields an error, the whole fold yields that error. -/
theorem foldE_error_at {σ α : Type} (f : σ → α → Except HErr σ) (er : HErr) :
    ∀ (l : List α) (s : σ) (k : Nat) (hk : k < l.length),
      (∀ j, (hj : j < k) → f s (l.get ⟨j, by omega⟩) = .ok s) →
      f s (l.get ⟨k, hk⟩) = .error er →
      foldE f s l = .error er := by
  intro l
  induction l with
  | nil =>
    intro s k hk
    simp at hk
  | cons a as ih =>
    intro s k hk hskip herr
    cases k with
    | zero =>
      simp only [List.get] at herr
      simp [foldE, herr]
    | succ k' =>
      have h0 : f s a = .ok s := hskip 0 (Nat.succ_pos k')
      simp only [List.get] at herr
      simp only [foldE, h0]
      exact ih s k' (Nat.lt_of_succ_lt_succ hk)
        (fun j hj => hskip (j + 1) (Nat.succ_lt_succ hj)) herr

/-- If the lowest-id used active element of a mesh is curved, the 1-level
post-pass raises the general curved-unsupported exception. -/
theorem regularizePost_curved (fuel : Nat) (m : Mesh)
    (par : List (Option Int)) (eid : Nat) (he : eid < m.elements.length)
    (hfirst : ∀ j, j < eid →
      ¬((m.elemAt j).used = true ∧ (m.elemAt j).active = true))
    (hu : (m.elemAt eid).used = true) (ha : (m.elemAt eid).active = true)
    (hc : (m.elemAt eid).curved = true) :
    m.regularizePost fuel par =
      Except.error (HErr.generalException
        "Regularization of curved elements is not supported.") := by
  unfold Mesh.regularizePost
  refine foldE_error_at _ _ (List.range m.elements.length) (m, par) eid
    (by simpa using he) (fun j hj => ?_) ?_
  · rw [List.get_range]
    exact if_neg (hfirst j hj)
  · rw [List.get_range]
    rw [if_pos ⟨hu, ha⟩, if_pos]
    exact hc

/-- **C8 (amended).** When `regularize` is called with `n < 1` and — after the
balancing loop converges — the post-pass encounters an active curved element
first (lowest id), the call raises the *general* exception with message
`"Regularization of curved elements is not supported."`; the element id is not
reported and the error is not the dedicated `CurvedException`. -/
theorem C8_regularize_curved (fuel : Nat) (m : Mesh) (n : Int) (hn : n < 1)
    (r : Mesh × List (Option Int))
    (hloop : regularizeLoop 1 fuel m (regInitParents m) = .ok r)
    (eid : Nat) (he : eid < r.1.elements.length)
    (hfirst : ∀ j, j < eid →
      ¬((r.1.elemAt j).used = true ∧ (r.1.elemAt j).active = true))
    (hu : (r.1.elemAt eid).used = true) (ha : (r.1.elemAt eid).active = true)
    (hc : (r.1.elemAt eid).curved = true) :
    m.regularize fuel n =
      Except.error (HErr.generalException
        "Regularization of curved elements is not supported.") := by
  unfold Mesh.regularize
  rw [if_pos hn]
  simp only [decide_eq_true hn, hloop]
  rw [regularizePost_curved fuel r.1 r.2 eid he hfirst hu ha hc]
  rfl

/-- The key-ordering discipline of vertex-node creation: every used vertex
node carrying a real key (`p1 ≥ 0`) was created as the mid-point of two
already-existing nodes, so both key components are smaller than its own id.
This is the structural property of reachable mesh states that makes the
`get_edge_degree` recursion well founded. -/
def ChildGt (m : Mesh) : Prop :=
  ∀ i, i < m.nodes.length → (m.nodeAt i).used = true →
    (m.nodeAt i).type = NodeType.vertex → 0 ≤ (m.nodeAt i).p1 →
    (m.nodeAt i).p1.toNat < i ∧ (m.nodeAt i).p2.toNat < i

instance (m : Mesh) : Decidable (ChildGt m) := by
  unfold ChildGt
  infer_instance

/-- A successful `findIdxFrom` yields an in-range index whose node satisfies
the predicate. -/
theorem findIdxFrom_some (p : Node → Bool) :
    ∀ (l : List Node) (s i : Nat), findIdxFrom p l s = some i →
      s ≤ i ∧ i - s < l.length ∧ p (l.getD (i - s) dummyNode) = true := by
  intro l
  induction l with
  | nil => intro s i h; simp [findIdxFrom] at h
  | cons a as ih =>
    intro s i h
    simp only [findIdxFrom] at h
    by_cases hp : p a
    · rw [if_pos hp] at h
      cases h
      exact ⟨le_refl s, by simp, by simpa [Nat.sub_self]⟩
    · rw [if_neg hp] at h
      obtain ⟨h1, h2, h3⟩ := ih (s + 1) i h
      refine ⟨by omega, by simp only [List.length_cons]; omega, ?_⟩
      have hi : i - s = (i - (s + 1)) + 1 := by omega
      rw [hi]
      simpa using h3

/-- Under the key-ordering discipline, a successful vertex-node lookup returns
a node strictly younger than both endpoints. -/
theorem peek_vertex_node_lt (m : Mesh) (hm : ChildGt m) (a b i : Nat)
    (h : m.peek_vertex_node a b = some i) :
    a < i ∧ b < i ∧ i < m.nodes.length := by
  obtain ⟨-, hlen, hp⟩ := findIdxFrom_some _ m.nodes 0 i h
  rw [Nat.sub_zero] at hlen hp
  simp only [Node.keyedBy, normKey, Bool.and_eq_true, beq_iff_eq] at hp
  obtain ⟨⟨⟨hused, htype⟩, hp1⟩, hp2⟩ := hp
  have hnode : m.nodeAt i = m.nodes.getD i dummyNode := rfl
  have hkey := hm i hlen (by rw [hnode]; exact hused)
    (by rw [hnode]; exact htype)
    (by rw [hnode, hp1]; exact Int.natCast_nonneg _)
  rw [hnode, hp1, hp2] at hkey
  simp only [Int.toNat_natCast] at hkey
  exact ⟨lt_of_le_of_lt (le_max_left a b) hkey.2,
    lt_of_le_of_lt (le_max_right a b) hkey.2, hlen⟩

/-- When no vertex node splits the edge, the degree is `0` for every fuel. -/
theorem edgeDegreeAux_peek_none (m : Mesh) {a b : Nat}
    (hp : m.peek_vertex_node a b = none) (f : Nat) :
    edgeDegreeAux m f a b = 0 := by
  cases f with
  | zero => rfl
  | succ f => simp [edgeDegreeAux, hp]

/-- One unfolding of the fuel-indexed degree when a splitting node exists. -/
theorem edgeDegreeAux_peek_some (m : Mesh) {a b v3 : Nat}
    (hp : m.peek_vertex_node a b = some v3) (f : Nat) :
    edgeDegreeAux m (f + 1) a b =
      1 + max (edgeDegreeAux m f a v3) (edgeDegreeAux m f v3 b) := by
  simp [edgeDegreeAux, hp]

/-- Under the key-ordering discipline the fuel-indexed degree stabilizes: any
fuel at least `2|nodes| + 1 - a - b` computes the same value. -/
theorem edgeDegreeAux_stable (m : Mesh) (hm : ChildGt m) :
    ∀ f a b, 2 * m.nodes.length + 1 - a - b ≤ f →
      edgeDegreeAux m f a b =
        edgeDegreeAux m (2 * m.nodes.length + 1 - a - b) a b := by
  intro f
  induction f using Nat.strong_induction_on with
  | _ f ih =>
    intro a b hf
    cases hp : m.peek_vertex_node a b with
    | none => rw [edgeDegreeAux_peek_none m hp, edgeDegreeAux_peek_none m hp]
    | some v3 =>
      obtain ⟨hav, hbv, hvN⟩ := peek_vertex_node_lt m hm a b v3 hp
      have haN : a < m.nodes.length := lt_trans hav hvN
      have hbN : b < m.nodes.length := lt_trans hbv hvN
      set N := m.nodes.length with hN
      obtain ⟨f', rfl⟩ : ∃ f', f = f' + 1 := ⟨f - 1, by omega⟩
      have hμ : 2 * N + 1 - a - b = (2 * N - a - b) + 1 := by omega
      rw [hμ, edgeDegreeAux_peek_some m hp, edgeDegreeAux_peek_some m hp]
      have h1 : edgeDegreeAux m f' a v3 =
          edgeDegreeAux m (2 * N + 1 - a - v3) a v3 :=
        ih f' (by omega) a v3 (by omega)
      have h2 : edgeDegreeAux m (2 * N - a - b) a v3 =
          edgeDegreeAux m (2 * N + 1 - a - v3) a v3 :=
        ih (2 * N - a - b) (by omega) a v3 (by omega)
      have h3 : edgeDegreeAux m f' v3 b =
          edgeDegreeAux m (2 * N + 1 - v3 - b) v3 b :=
        ih f' (by omega) v3 b (by omega)
      have h4 : edgeDegreeAux m (2 * N - a - b) v3 b =
          edgeDegreeAux m (2 * N + 1 - v3 - b) v3 b :=
        ih (2 * N - a - b) (by omega) v3 b (by omega)
      rw [h1, h2, h3, h4]

/-- **C2.** On every mesh obeying the vertex-key creation discipline (the
reachable states), `get_edge_degree(v1, v2)` returns `0` when no vertex node
is keyed by the unordered pair (`peek_vertex_node` returns null), and
otherwise `1 + max(get_edge_degree(v1, v3), get_edge_degree(v3, v2))` for the
mid-point node `v3`; and the recursion terminates: every sufficiently large
fuel computes the same value, so the fuel-indexed approximations reach a
fixed point. -/
theorem C2_get_edge_degree (m : Mesh) (hm : ChildGt m) (v1 v2 : Nat) :
    (m.get_edge_degree v1 v2 =
      match m.peek_vertex_node v1 v2 with
      | none => 0
      | some v3 => 1 + max (m.get_edge_degree v1 v3) (m.get_edge_degree v3 v2))
    ∧ ∀ fuel, 2 * m.nodes.length + 1 ≤ fuel →
        edgeDegreeAux m fuel v1 v2 = m.get_edge_degree v1 v2 := by
  constructor
  · cases hp : m.peek_vertex_node v1 v2 with
    | none => exact edgeDegreeAux_peek_none m hp _
    | some v3 =>
      obtain ⟨hav, hbv, hvN⟩ := peek_vertex_node_lt m hm v1 v2 v3 hp
      show edgeDegreeAux m (2 * m.nodes.length + 1) v1 v2 = _
      have hμ : 2 * m.nodes.length + 1 = 2 * m.nodes.length + 1 := rfl
      rw [edgeDegreeAux_peek_some m hp]
      have h1 : edgeDegreeAux m (2 * m.nodes.length) v1 v3 =
          m.get_edge_degree v1 v3 := by
        show _ = edgeDegreeAux m (2 * m.nodes.length + 1) v1 v3
        rw [edgeDegreeAux_stable m hm (2 * m.nodes.length) v1 v3 (by omega),
          edgeDegreeAux_stable m hm (2 * m.nodes.length + 1) v1 v3 (by omega)]
      have h2 : edgeDegreeAux m (2 * m.nodes.length) v3 v2 =
          m.get_edge_degree v3 v2 := by
        show _ = edgeDegreeAux m (2 * m.nodes.length + 1) v3 v2
        rw [edgeDegreeAux_stable m hm (2 * m.nodes.length) v3 v2 (by omega),
          edgeDegreeAux_stable m hm (2 * m.nodes.length + 1) v3 v2 (by omega)]
      rw [h1, h2]
  · intro fuel hfuel
    show _ = edgeDegreeAux m (2 * m.nodes.length + 1) v1 v2
    rw [edgeDegreeAux_stable m hm fuel v1 v2 (by omega),
      edgeDegreeAux_stable m hm (2 * m.nodes.length + 1) v1 v2 (by omega)]

/-- **C2 witness.** The recursion equation and fuel-independence evaluated on
the refined unit square (which satisfies the key discipline) at the edge
`(0, 1)`, whose degree is 1. -/
theorem C2_get_edge_degree_witness :
    (unitSquare1.get_edge_degree 0 1 =
      match unitSquare1.peek_vertex_node 0 1 with
      | none => 0
      | some v3 => 1 + max (unitSquare1.get_edge_degree 0 v3)
          (unitSquare1.get_edge_degree v3 1))
    ∧ edgeDegreeAux unitSquare1 60 0 1 = unitSquare1.get_edge_degree 0 1 :=
  ⟨(C2_get_edge_degree unitSquare1 (by decide) 0 1).1,
   (C2_get_edge_degree unitSquare1 (by decide) 0 1).2 60 (by decide)⟩

/-! ## Frame lemmas for the element store -/

theorem getD_append_lt {α : Type} (l l2 : List α) (d : α) (j : Nat)
    (h : j < l.length) : (l ++ l2).getD j d = l.getD j d := by
  simp [List.getD_eq_getElem?_getD, List.getElem?_append, h]

theorem getD_append_at {α : Type} (l : List α) (a : α) (d : α) :
    (l ++ [a]).getD l.length d = a := by
  simp [List.getD_eq_getElem?_getD, List.getElem?_append, lt_irrefl]

theorem getD_append_gt1 {α : Type} (l : List α) (a : α) (d : α) (j : Nat)
    (h : l.length < j) : (l ++ [a]).getD j d = d := by
  have hnj : ¬j < l.length := by omega
  simp only [List.getD_eq_getElem?_getD, List.getElem?_append, hnj, if_false]
  have h2 : ([a] : List α).length ≤ j - l.length := by
    simp only [List.length_singleton]
    omega
  rw [List.getElem?_eq_none h2]
  rfl

theorem getD_set_ne {α : Type} (l : List α) (d : α) (i j : Nat) (a : α)
    (h : j ≠ i) : (l.set i a).getD j d = l.getD j d := by
  simp [List.getD_eq_getElem?_getD, List.getElem?_set_ne (Ne.symm h)]

theorem getD_set_self {α : Type} (l : List α) (d : α) (i : Nat) (a : α)
    (h : i < l.length) : (l.set i a).getD i d = a := by
  simp [List.getD_eq_getElem?_getD, List.getElem?_set_self, h]

theorem elements_foldl_nodeop {α : Type} (f : Mesh → α → Mesh)
    (hf : ∀ m a, (f m a).elements = m.elements) :
    ∀ (l : List α) (m : Mesh), (l.foldl f m).elements = m.elements := by
  intro l
  induction l with
  | nil => intro m; rfl
  | cons a as ih => intro m; rw [List.foldl_cons, ih, hf]

theorem elements_ref_all_nodes (m : Mesh) (e : Element) :
    (m.ref_all_nodes e).elements = m.elements :=
  elements_foldl_nodeop Mesh.refNode (fun _ _ => rfl) e.allNodeIds m

theorem elements_unref_all_nodes (m : Mesh) (e : Element) :
    (m.unref_all_nodes e).elements = m.elements :=
  elements_foldl_nodeop Mesh.unrefNode (fun _ _ => rfl) e.allNodeIds m

theorem elements_get_vertex_node (m : Mesh) (a b : Nat) :
    (m.get_vertex_node a b).1.elements = m.elements := by
  unfold Mesh.get_vertex_node
  cases m.peek_vertex_node a b <;> rfl

theorem elements_get_edge_node (m : Mesh) (a b : Nat) :
    (m.get_edge_node a b).1.elements = m.elements := by
  unfold Mesh.get_edge_node
  cases m.peek_edge_node a b <;> rfl

theorem elemAt_setElemF_ne (m : Mesh) (i : Nat) (f : Element → Element)
    (j : Nat) (h : j ≠ i) : (m.setElemF i f).elemAt j = m.elemAt j :=
  getD_set_ne _ _ _ _ _ h

theorem elemAt_setElemF_self (m : Mesh) (i : Nat) (f : Element → Element)
    (h : i < m.elements.length) :
    (m.setElemF i f).elemAt i = f (m.elemAt i) :=
  getD_set_self _ _ _ _ h

theorem length_setElemF (m : Mesh) (i : Nat) (f : Element → Element) :
    (m.setElemF i f).elements.length = m.elements.length := by
  simp [Mesh.setElemF]

/-- Shape of a successful `create_triangle`: the new element is appended at id
`|elements|`, fully initialized (active, no sons, no parent), and no other
element changes. -/
theorem create_triangle_shape (m : Mesh) (mk : Int) (v0 v1 v2 : Nat)
    (c : Bool) (m' : Mesh) (sid : Nat)
    (h : m.create_triangle mk v0 v1 v2 c = .ok (m', sid)) :
    sid = m.elements.length
    ∧ m'.elements.length = m.elements.length + 1
    ∧ (∀ j, j ≠ sid → m'.elemAt j = m.elemAt j)
    ∧ (∃ ens : List Nat, m'.elemAt sid =
        { used := true, active := true, marker := mk, nvert := 3,
          vn := [v0, v1, v2], en := ens,
          sons := [none, none, none, none], parent := none, curved := c,
          iro_cache := 0 }) := by
  unfold Mesh.create_triangle at h
  split_ifs at h
  injection h with h1
  injection h1 with hm hs
  subst hm
  subst hs
  set q0 := m.get_edge_node v0 v1 with hq0
  set q1 := q0.1.get_edge_node v1 v2 with hq1
  set q2 := q1.1.get_edge_node v2 v0 with hq2
  have hel : q2.1.elements = m.elements := by
    rw [hq2, elements_get_edge_node, hq1, elements_get_edge_node, hq0,
      elements_get_edge_node]
  constructor
  · rfl
  refine ⟨?_, fun j hj => ?_, ⟨[q0.2, q1.2, q2.2], ?_⟩⟩
  · rw [elements_ref_all_nodes]
    simp [hel]
  · show (Mesh.ref_all_nodes _ _).elements.getD j dummyElement = _
    rw [elements_ref_all_nodes]
    show (q2.1.elements ++ [_]).getD j dummyElement = _
    rw [hel]
    rcases Nat.lt_trichotomy j m.elements.length with hlt | heq | hgt
    · exact getD_append_lt _ _ _ _ hlt
    · exact absurd heq hj
    · rw [getD_append_gt1 _ _ _ _ hgt, Mesh.elemAt,
        List.getD_eq_default _ _ (by omega)]
  · show (Mesh.ref_all_nodes _ _).elements.getD m.elements.length dummyElement = _
    rw [elements_ref_all_nodes]
    show (q2.1.elements ++ [_]).getD m.elements.length dummyElement = _
    rw [hel]
    exact getD_append_at _ _ _

/-- Shape of a successful `create_quad`: as for `create_triangle`, with four
vertices. -/
theorem create_quad_shape (m : Mesh) (mk : Int) (v0 v1 v2 v3 : Nat)
    (c : Bool) (m' : Mesh) (sid : Nat)
    (h : m.create_quad mk v0 v1 v2 v3 c = .ok (m', sid)) :
    sid = m.elements.length
    ∧ m'.elements.length = m.elements.length + 1
    ∧ (∀ j, j ≠ sid → m'.elemAt j = m.elemAt j)
    ∧ (∃ ens : List Nat, m'.elemAt sid =
        { used := true, active := true, marker := mk, nvert := 4,
          vn := [v0, v1, v2, v3], en := ens,
          sons := [none, none, none, none], parent := none, curved := c,
          iro_cache := 0 }) := by
  unfold Mesh.create_quad at h
  split_ifs at h
  injection h with h1
  injection h1 with hm hs
  subst hm
  subst hs
  set q0 := m.get_edge_node v0 v1 with hq0
  set q1 := q0.1.get_edge_node v1 v2 with hq1
  set q2 := q1.1.get_edge_node v2 v3 with hq2
  set q3 := q2.1.get_edge_node v3 v0 with hq3
  have hel : q3.1.elements = m.elements := by
    rw [hq3, elements_get_edge_node, hq2, elements_get_edge_node, hq1,
      elements_get_edge_node, hq0, elements_get_edge_node]
  constructor
  · rfl
  refine ⟨?_, fun j hj => ?_, ⟨[q0.2, q1.2, q2.2, q3.2], ?_⟩⟩
  · rw [elements_ref_all_nodes]
    simp [hel]
  · show (Mesh.ref_all_nodes _ _).elements.getD j dummyElement = _
    rw [elements_ref_all_nodes]
    show (q3.1.elements ++ [_]).getD j dummyElement = _
    rw [hel]
    rcases Nat.lt_trichotomy j m.elements.length with hlt | heq | hgt
    · exact getD_append_lt _ _ _ _ hlt
    · exact absurd heq hj
    · rw [getD_append_gt1 _ _ _ _ hgt, Mesh.elemAt,
        List.getD_eq_default _ _ (by omega)]
  · show (Mesh.ref_all_nodes _ _).elements.getD m.elements.length dummyElement = _
    rw [elements_ref_all_nodes]
    show (q3.1.elements ++ [_]).getD m.elements.length dummyElement = _
    rw [hel]
    exact getD_append_at _ _ _

theorem elemAt_congr (m1 m2 : Mesh) (j : Nat)
    (h : m1.elements = m2.elements) : m1.elemAt j = m2.elemAt j := by
  unfold Mesh.elemAt
  rw [h]

theorem elemAt_foldl_setElemF_notmem (f : Element → Element) :
    ∀ (l : List Nat) (m : Mesh) (j : Nat), j ∉ l →
      (l.foldl (fun acc s => acc.setElemF s f) m).elemAt j = m.elemAt j := by
  intro l
  induction l with
  | nil => intro m j _; rfl
  | cons a as ih =>
    intro m j hj
    rw [List.foldl_cons, ih _ _ (fun hmem => hj (List.mem_cons_of_mem a hmem)),
      elemAt_setElemF_ne _ _ _ _ (fun hja => hj (by
        rw [hja]
        exact List.mem_cons_self a as))]

theorem length_foldl_setElemF (f : Element → Element) :
    ∀ (l : List Nat) (m : Mesh),
      (l.foldl (fun acc s => acc.setElemF s f) m).elements.length
        = m.elements.length := by
  intro l
  induction l with
  | nil => intro m; rfl
  | cons a as ih =>
    intro m
    rw [List.foldl_cons, ih, length_setElemF]

theorem elemAt_foldl_setElemF_mem (f : Element → Element) :
    ∀ (l : List Nat) (m : Mesh) (j : Nat), j ∈ l → l.Nodup →
      j < m.elements.length →
      (l.foldl (fun acc s => acc.setElemF s f) m).elemAt j = f (m.elemAt j) := by
  intro l
  induction l with
  | nil => intro m j hj; simp at hj
  | cons a as ih =>
    intro m j hj hnd hlen
    rw [List.foldl_cons]
    rcases List.mem_cons.mp hj with hja | hjas
    · subst hja
      have hnot : j ∉ as := (List.nodup_cons.mp hnd).1
      rw [elemAt_foldl_setElemF_notmem f as _ j hnot,
        elemAt_setElemF_self _ _ _ hlen]
    · have hne : j ≠ a := by
        intro hc
        subst hc
        exact (List.nodup_cons.mp hnd).1 hjas
      rw [ih _ _ hjas (List.nodup_cons.mp hnd).2
          (by rw [length_setElemF]; exact hlen),
        elemAt_setElemF_ne _ _ _ _ hne]

theorem elemAt_foldl_setElemF_mem2 (f : Element → Element) :
    ∀ (l : List Nat) (m : Mesh) (j : Nat), j ∈ l → l.Nodup →
      (l.foldl (fun acc s => acc.setElemF s f) m).elemAt j =
        if j < m.elements.length then f (m.elemAt j) else m.elemAt j := by
  intro l
  induction l with
  | nil => intro m j hj; simp at hj
  | cons a as ih =>
    intro m j hj hnd
    rw [List.foldl_cons]
    rcases List.mem_cons.mp hj with hja | hjas
    · subst hja
      rw [elemAt_foldl_setElemF_notmem f as _ j (List.nodup_cons.mp hnd).1]
      by_cases hlt : j < m.elements.length
      · rw [if_pos hlt, elemAt_setElemF_self _ _ _ hlt]
      · rw [if_neg hlt]
        unfold Mesh.setElemF Mesh.elemAt
        rw [List.set_eq_of_length_le (by omega)]
    · have hne : j ≠ a := by
        intro hc
        subst hc
        exact (List.nodup_cons.mp hnd).1 hjas
      rw [ih _ _ hjas (List.nodup_cons.mp hnd).2,
        elemAt_setElemF_ne _ _ _ _ hne, length_setElemF]

/-- The element-store effect common to every refinement split: `k` fresh sons
appended, the parent deactivated with son pointers `sons`, all other elements
untouched; each fresh son is fully initialized (active, no sons of its own,
parent pointer `pr`), and the ids listed in `sons` are exactly the fresh
ids. -/
structure RefinedShape (m m' : Mesh) (eid : Nat) (sons : List (Option Nat))
    (k : Nat) (pr : Option Nat) : Prop where
  len : m'.elements.length = m.elements.length + k
  frame : ∀ j, j < m.elements.length → j ≠ eid → m'.elemAt j = m.elemAt j
  parentElem : m'.elemAt eid =
    { m.elemAt eid with active := false, sons := sons }
  freshElem : ∀ s, m.elements.length ≤ s → s < m'.elements.length →
    (m'.elemAt s).used = true ∧ (m'.elemAt s).active = true
      ∧ (m'.elemAt s).sons = [none, none, none, none]
      ∧ (m'.elemAt s).parent = pr
  sonsFresh : ∀ s, some s ∈ sons →
    m.elements.length ≤ s ∧ s < m'.elements.length
  freshSons : ∀ s, m.elements.length ≤ s → s < m'.elements.length →
    some s ∈ sons

/-- Pass-through layer lemmas: node-field updates and reference-count
operations leave the element store untouched. -/
theorem elements_setEnBndMarker (m : Mesh) (nid : Nat) (b mk : Int) :
    (m.setEnBndMarker nid b mk).elements = m.elements := rfl

theorem elements_setVnBnd (m : Mesh) (nid : Nat) (b : Int) :
    (m.setVnBnd nid b).elements = m.elements := rfl

theorem elements_withNactive (m : Mesh) (v : Int) :
    ({ m with nactive := v } : Mesh).elements = m.elements := rfl

theorem elemAt_setEnBndMarker (m : Mesh) (nid : Nat) (b mk : Int) (j : Nat) :
    (m.setEnBndMarker nid b mk).elemAt j = m.elemAt j := rfl

theorem elemAt_setVnBnd (m : Mesh) (nid : Nat) (b : Int) (j : Nat) :
    (m.setVnBnd nid b).elemAt j = m.elemAt j := rfl

theorem elemAt_withNactive (m : Mesh) (v : Int) (j : Nat) :
    ({ m with nactive := v } : Mesh).elemAt j = m.elemAt j := rfl

theorem elemAt_unref_all_nodes (m : Mesh) (e : Element) (j : Nat) :
    (m.unref_all_nodes e).elemAt j = m.elemAt j :=
  elemAt_congr _ _ _ (elements_unref_all_nodes m e)

theorem elemAt_ref_all_nodes (m : Mesh) (e : Element) (j : Nat) :
    (m.ref_all_nodes e).elemAt j = m.elemAt j :=
  elemAt_congr _ _ _ (elements_ref_all_nodes m e)

theorem elemAt_get_vertex_node (m : Mesh) (a b : Nat) (j : Nat) :
    (m.get_vertex_node a b).1.elemAt j = m.elemAt j :=
  elemAt_congr _ _ _ (elements_get_vertex_node m a b)

theorem elemAt_get_edge_node (m : Mesh) (a b : Nat) (j : Nat) :
    (m.get_edge_node a b).1.elemAt j = m.elemAt j :=
  elemAt_congr _ _ _ (elements_get_edge_node m a b)

theorem elements_setNodeF (m : Mesh) (i : Nat) (f : Node → Node) :
    (m.setNodeF i f).elements = m.elements := rfl

theorem elemAt_setNodeF (m : Mesh) (i : Nat) (f : Node → Node) (j : Nat) :
    (m.setNodeF i f).elemAt j = m.elemAt j := rfl

/-- Shape of a successful `refine_triangle_to_triangles`: four fresh active
sons, parent deactivated with the four son pointers. -/
theorem refine_triangle_to_triangles_shape (m : Mesh) (eid : Nat) (m' : Mesh)
    (heid : eid < m.elements.length)
    (h : m.refine_triangle_to_triangles eid = .ok m') :
    RefinedShape m m' eid
      [some m.elements.length, some (m.elements.length + 1),
        some (m.elements.length + 2), some (m.elements.length + 3)] 4
      (some eid) := by
  simp only [Mesh.refine_triangle_to_triangles] at h
  split at h
  · cases h
  next m1 s0 hc0 =>
  split at h
  · cases h
  next m2 s1 hc1 =>
  split at h
  · cases h
  next m3 s2 hc2 =>
  split at h
  · cases h
  next m4 s3 hc3 =>
  injection h with h1
  subst h1
  obtain ⟨hs0, hl1, hf1, e1, he1⟩ := create_triangle_shape _ _ _ _ _ _ _ _ hc0
  obtain ⟨hs1, hl2, hf2, e2, he2⟩ := create_triangle_shape _ _ _ _ _ _ _ _ hc1
  obtain ⟨hs2, hl3, hf3, e3, he3⟩ := create_triangle_shape _ _ _ _ _ _ _ _ hc2
  obtain ⟨hs3, hl4, hf4, e4, he4⟩ := create_triangle_shape _ _ _ _ _ _ _ _ hc3
  rw [elements_get_vertex_node, elements_get_vertex_node,
    elements_get_vertex_node] at hs0 hl1
  set L := m.elements.length with hL
  rw [hl1] at hs1 hl2
  rw [hl2] at hs2 hl3
  rw [hl3] at hs3 hl4
  subst hs0
  subst hs1
  subst hs2
  subst hs3
  have hfr : ∀ j, j ≠ L → j ≠ L + 1 → j ≠ L + 2 → j ≠ L + 3 →
      m4.elemAt j = m.elemAt j := by
    intro j h0 h1 h2 h3
    rw [hf4 j h3, hf3 j h2, hf2 j h1, hf1 j h0, elemAt_get_vertex_node,
      elemAt_get_vertex_node, elemAt_get_vertex_node]
  refine ⟨?_, ?_, ?_, ?_, ?_, ?_⟩
  · simp only [length_setElemF, length_foldl_setElemF, elements_setVnBnd,
      elements_setEnBndMarker, elements_unref_all_nodes, elements_withNactive]
    omega
  · intro j hj hje
    rw [elemAt_setElemF_ne _ _ _ _ hje,
      elemAt_foldl_setElemF_notmem _ _ _ _ (by
        simp only [List.mem_cons, List.not_mem_nil, or_false]
        omega)]
    simp only [elemAt_setVnBnd, elemAt_setEnBndMarker, elemAt_unref_all_nodes,
      elemAt_withNactive]
    rw [elemAt_setElemF_ne _ _ _ _ hje]
    exact hfr j (by omega) (by omega) (by omega) (by omega)
  · rw [elemAt_setElemF_self _ _ _ (by
      simp only [length_foldl_setElemF, elements_setVnBnd,
        elements_setEnBndMarker, elements_unref_all_nodes,
        elements_withNactive, length_setElemF]
      omega)]
    simp only []
    rw [elemAt_foldl_setElemF_notmem _ _ _ _ (by
        simp only [List.mem_cons, List.not_mem_nil, or_false]
        omega)]
    simp only [elemAt_setVnBnd, elemAt_setEnBndMarker, elemAt_unref_all_nodes,
      elemAt_withNactive]
    rw [elemAt_setElemF_self _ _ _ (by omega),
      hfr eid (by omega) (by omega) (by omega) (by omega)]
  · intro s hsl hsu
    have hs4 : s < L + 4 := by
      revert hsu
      rw [length_setElemF, length_foldl_setElemF]
      simp only [elements_setVnBnd, elements_setEnBndMarker,
        elements_unref_all_nodes, elements_withNactive, length_setElemF]
      omega
    have hse : s ≠ eid := by omega
    have hA : s ∈ [L, L + 1, L + 2, L + 3] := by
      simp only [List.mem_cons, List.not_mem_nil, or_false]
      omega
    have hB : ([L, L + 1, L + 2, L + 3] : List Nat).Nodup := by
      simp only [List.nodup_cons, List.mem_cons, List.not_mem_nil, or_false,
        not_or, List.nodup_nil, and_true, not_false_eq_true]
      omega
    rw [elemAt_setElemF_ne _ _ _ _ hse,
      elemAt_foldl_setElemF_mem2 _ _ _ _ hA hB]
    simp only [elemAt_setVnBnd, elemAt_setEnBndMarker, elemAt_unref_all_nodes,
      elemAt_withNactive, elements_setVnBnd, elements_setEnBndMarker,
      elements_unref_all_nodes, elements_withNactive, length_setElemF]
    rw [if_pos (show s < m4.elements.length by omega)]
    rw [elemAt_setElemF_ne _ _ _ _ hse]
    have hcase : s = L ∨ s = L + 1 ∨ s = L + 2 ∨ s = L + 3 := by omega
    rcases hcase with rfl | rfl | rfl | rfl
    · rw [hf4 _ (by omega), hf3 _ (by omega), hf2 _ (by omega), he1]
      exact ⟨rfl, rfl, rfl, rfl⟩
    · rw [hf4 _ (by omega), hf3 _ (by omega), he2]
      exact ⟨rfl, rfl, rfl, rfl⟩
    · rw [hf4 _ (by omega), he3]
      exact ⟨rfl, rfl, rfl, rfl⟩
    · rw [he4]
      exact ⟨rfl, rfl, rfl, rfl⟩
  · intro s hmem
    simp only [List.mem_cons, List.not_mem_nil, or_false,
      Option.some.injEq] at hmem
    simp only [length_setElemF, length_foldl_setElemF, elements_setVnBnd,
      elements_setEnBndMarker, elements_unref_all_nodes, elements_withNactive]
    rcases hmem with h | h | h | h <;> omega
  · intro s hsl hsu
    revert hsu
    simp only [length_setElemF, length_foldl_setElemF, elements_setVnBnd,
      elements_setEnBndMarker, elements_unref_all_nodes, elements_withNactive]
    intro hsu
    simp only [List.mem_cons, List.not_mem_nil, or_false, Option.some.injEq]
    omega


theorem elements_foldl_quadMarkerStep (bnds mrks : List Int) (sids : List Nat)
    (l : List Nat) (m : Mesh) :
    (l.foldl (quadMarkerStep bnds mrks sids) m).elements = m.elements :=
  elements_foldl_nodeop (quadMarkerStep bnds mrks sids) (fun _ _ => rfl) l m

theorem elemAt_foldl_quadMarkerStep (bnds mrks : List Int) (sids : List Nat)
    (l : List Nat) (m : Mesh) (j : Nat) :
    (l.foldl (quadMarkerStep bnds mrks sids) m).elemAt j = m.elemAt j :=
  elemAt_congr _ _ _ (elements_foldl_quadMarkerStep bnds mrks sids l m)

/-- Shape of a successful four-son `refine_quad` (`refinement = 0`): four
fresh active sons, parent deactivated with the four son pointers. -/
theorem refine_quad_shape0 (m : Mesh) (eid : Nat) (m' : Mesh)
    (heid : eid < m.elements.length)
    (h : m.refine_quad eid 0 = .ok m') :
    RefinedShape m m' eid
      [some m.elements.length, some (m.elements.length + 1),
        some (m.elements.length + 2), some (m.elements.length + 3)] 4
      (some eid) := by
  simp only [Mesh.refine_quad, reduceIte] at h
  split at h
  · cases h
  next m1 s0 hc0 =>
  split at h
  · cases h
  next m2 s1 hc1 =>
  split at h
  · cases h
  next m3 s2 hc2 =>
  split at h
  · cases h
  next m4 s3 hc3 =>
  injection h with h1
  subst h1
  obtain ⟨hs0, hl1, hf1, e1, he1⟩ := create_quad_shape _ _ _ _ _ _ _ _ _ hc0
  obtain ⟨hs1, hl2, hf2, e2, he2⟩ := create_quad_shape _ _ _ _ _ _ _ _ _ hc1
  obtain ⟨hs2, hl3, hf3, e3, he3⟩ := create_quad_shape _ _ _ _ _ _ _ _ _ hc2
  obtain ⟨hs3, hl4, hf4, e4, he4⟩ := create_quad_shape _ _ _ _ _ _ _ _ _ hc3
  simp only [elements_get_vertex_node, elements_unref_all_nodes,
    elements_withNactive, length_setElemF] at hs0 hl1
  set L := m.elements.length with hL
  rw [hl1] at hs1 hl2
  rw [hl2] at hs2 hl3
  rw [hl3] at hs3 hl4
  subst hs0
  subst hs1
  subst hs2
  subst hs3
  have hfr : ∀ j, j ≠ L → j ≠ L + 1 → j ≠ L + 2 → j ≠ L + 3 →
      m4.elemAt j =
        (m.setElemF eid fun p => { p with active := false }).elemAt j := by
    intro j h0 h1 h2 h3
    rw [hf4 j h3, hf3 j h2, hf2 j h1, hf1 j h0, elemAt_get_vertex_node,
      elemAt_get_vertex_node, elemAt_get_vertex_node, elemAt_get_vertex_node,
      elemAt_get_vertex_node, elemAt_unref_all_nodes, elemAt_withNactive]
  refine ⟨?_, ?_, ?_, ?_, ?_, ?_⟩
  · rw [length_setElemF, length_foldl_setElemF]
    simp only [elements_foldl_quadMarkerStep, elements_withNactive]
    omega
  · intro j hj hje
    rw [elemAt_setElemF_ne _ _ _ _ hje,
      elemAt_foldl_setElemF_notmem _ _ _ _ (by
        simp only [List.mem_cons, List.not_mem_nil, or_false]
        omega),
      elemAt_foldl_quadMarkerStep, elemAt_withNactive,
      hfr j (by omega) (by omega) (by omega) (by omega),
      elemAt_setElemF_ne _ _ _ _ hje]
  · rw [elemAt_setElemF_self _ _ _ (by
      rw [length_foldl_setElemF]
      simp only [elements_foldl_quadMarkerStep, elements_withNactive]
      omega)]
    simp only []
    rw [elemAt_foldl_setElemF_notmem _ _ _ _ (by
        simp only [List.mem_cons, List.not_mem_nil, or_false]
        omega),
      elemAt_foldl_quadMarkerStep, elemAt_withNactive,
      hfr eid (by omega) (by omega) (by omega) (by omega),
      elemAt_setElemF_self _ _ _ heid]
  · intro s hsl hsu
    have hs4 : s < L + 4 := by
      revert hsu
      rw [length_setElemF, length_foldl_setElemF]
      simp only [elements_foldl_quadMarkerStep, elements_withNactive]
      omega
    have hse : s ≠ eid := by omega
    have hA : s ∈ [L, L + 1, L + 2, L + 3] := by
      simp only [List.mem_cons, List.not_mem_nil, or_false]
      omega
    have hB : ([L, L + 1, L + 2, L + 3] : List Nat).Nodup := by
      simp only [List.nodup_cons, List.mem_cons, List.not_mem_nil, or_false,
        not_or, List.nodup_nil, and_true, not_false_eq_true]
      omega
    rw [elemAt_setElemF_ne _ _ _ _ hse,
      elemAt_foldl_setElemF_mem2 _ _ _ _ hA hB]
    simp only [elements_foldl_quadMarkerStep, elements_withNactive]
    rw [if_pos (show s < m4.elements.length by omega)]
    rw [elemAt_foldl_quadMarkerStep, elemAt_withNactive]
    have hcase : s = L ∨ s = L + 1 ∨ s = L + 2 ∨ s = L + 3 := by omega
    rcases hcase with rfl | rfl | rfl | rfl
    · rw [hf4 _ (by omega), hf3 _ (by omega), hf2 _ (by omega), he1]
      exact ⟨rfl, rfl, rfl, rfl⟩
    · rw [hf4 _ (by omega), hf3 _ (by omega), he2]
      exact ⟨rfl, rfl, rfl, rfl⟩
    · rw [hf4 _ (by omega), he3]
      exact ⟨rfl, rfl, rfl, rfl⟩
    · rw [he4]
      exact ⟨rfl, rfl, rfl, rfl⟩
  · intro s hmem
    simp only [List.mem_cons, List.not_mem_nil, or_false,
      Option.some.injEq] at hmem
    rw [length_setElemF, length_foldl_setElemF]
    simp only [elements_foldl_quadMarkerStep, elements_withNactive]
    rcases hmem with h | h | h | h <;> omega
  · intro s hsl hsu
    revert hsu
    rw [length_setElemF, length_foldl_setElemF]
    simp only [elements_foldl_quadMarkerStep, elements_withNactive]
    intro hsu
    simp only [List.mem_cons, List.not_mem_nil, or_false, Option.some.injEq]
    omega

/-- Shape of a successful two-horizontal-son `refine_quad` (`refinement = 1`):
two fresh active sons in slots 0 and 1. -/
theorem refine_quad_shape1 (m : Mesh) (eid : Nat) (m' : Mesh)
    (heid : eid < m.elements.length)
    (h : m.refine_quad eid 1 = .ok m') :
    RefinedShape m m' eid
      [some m.elements.length, some (m.elements.length + 1), none, none] 2
      (some eid) := by
  simp only [Mesh.refine_quad, if_true] at h
  rw [if_neg (by decide : ((1:Int) = 0) → False)] at h
  split at h
  · cases h
  next m1 s0 hc0 =>
  split at h
  · cases h
  next m2 s1 hc1 =>
  injection h with h1
  subst h1
  obtain ⟨hs0, hl1, hf1, e1, he1⟩ := create_quad_shape _ _ _ _ _ _ _ _ _ hc0
  obtain ⟨hs1, hl2, hf2, e2, he2⟩ := create_quad_shape _ _ _ _ _ _ _ _ _ hc1
  simp only [elements_get_vertex_node, elements_unref_all_nodes,
    elements_withNactive, length_setElemF] at hs0 hl1
  set L := m.elements.length with hL
  rw [hl1] at hs1 hl2
  subst hs0
  subst hs1
  have hfr : ∀ j, j ≠ L → j ≠ L + 1 →
      m2.elemAt j =
        (m.setElemF eid fun p => { p with active := false }).elemAt j := by
    intro j h0 h1
    rw [hf2 j h1, hf1 j h0, elemAt_get_vertex_node, elemAt_get_vertex_node,
      elemAt_unref_all_nodes, elemAt_withNactive]
  refine ⟨?_, ?_, ?_, ?_, ?_, ?_⟩
  · rw [length_setElemF, length_foldl_setElemF]
    simp only [elements_setVnBnd, elements_setEnBndMarker,
      elements_withNactive]
    omega
  · intro j hj hje
    rw [elemAt_setElemF_ne _ _ _ _ hje,
      elemAt_foldl_setElemF_notmem _ _ _ _ (by
        simp only [List.mem_cons, List.not_mem_nil, or_false]
        omega)]
    simp only [elemAt_setVnBnd, elemAt_setEnBndMarker, elemAt_withNactive]
    rw [hfr j (by omega) (by omega), elemAt_setElemF_ne _ _ _ _ hje]
  · rw [elemAt_setElemF_self _ _ _ (by
      rw [length_foldl_setElemF]
      simp only [elements_setVnBnd, elements_setEnBndMarker,
        elements_withNactive]
      omega)]
    simp only []
    rw [elemAt_foldl_setElemF_notmem _ _ _ _ (by
        simp only [List.mem_cons, List.not_mem_nil, or_false]
        omega)]
    simp only [elemAt_setVnBnd, elemAt_setEnBndMarker, elemAt_withNactive]
    rw [hfr eid (by omega) (by omega), elemAt_setElemF_self _ _ _ heid]
  · intro s hsl hsu
    have hs2 : s < L + 2 := by
      revert hsu
      rw [length_setElemF, length_foldl_setElemF]
      simp only [elements_setVnBnd, elements_setEnBndMarker,
        elements_withNactive]
      omega
    have hse : s ≠ eid := by omega
    have hA : s ∈ [L, L + 1] := by
      simp only [List.mem_cons, List.not_mem_nil, or_false]
      omega
    have hB : ([L, L + 1] : List Nat).Nodup := by
      simp only [List.nodup_cons, List.mem_cons, List.not_mem_nil, or_false,
        not_or, List.nodup_nil, and_true, not_false_eq_true]
      omega
    rw [elemAt_setElemF_ne _ _ _ _ hse,
      elemAt_foldl_setElemF_mem2 _ _ _ _ hA hB]
    simp only [elements_setVnBnd, elements_setEnBndMarker,
      elements_withNactive]
    rw [if_pos (show s < m2.elements.length by omega)]
    simp only [elemAt_setVnBnd, elemAt_setEnBndMarker, elemAt_withNactive]
    have hcase : s = L ∨ s = L + 1 := by omega
    rcases hcase with rfl | rfl
    · rw [hf2 _ (by omega), he1]
      exact ⟨rfl, rfl, rfl, trivial⟩
    · rw [he2]
      exact ⟨rfl, rfl, rfl, trivial⟩
  · intro s hmem
    simp only [List.mem_cons, List.not_mem_nil, or_false, false_or,
      Option.some.injEq, reduceCtorEq] at hmem
    rw [length_setElemF, length_foldl_setElemF]
    simp only [elements_setVnBnd, elements_setEnBndMarker,
      elements_withNactive]
    rcases hmem with h | h <;> omega
  · intro s hsl hsu
    revert hsu
    rw [length_setElemF, length_foldl_setElemF]
    simp only [elements_setVnBnd, elements_setEnBndMarker,
      elements_withNactive]
    intro hsu
    simp only [List.mem_cons, List.not_mem_nil, or_false, false_or,
      Option.some.injEq, reduceCtorEq]
    omega

/-- Shape of a successful two-vertical-son `refine_quad` (`refinement = 2`):
two fresh active sons in slots 2 and 3. -/
theorem refine_quad_shape2 (m : Mesh) (eid : Nat) (m' : Mesh)
    (heid : eid < m.elements.length)
    (h : m.refine_quad eid 2 = .ok m') :
    RefinedShape m m' eid
      [none, none, some m.elements.length, some (m.elements.length + 1)] 2
      (some eid) := by
  simp only [Mesh.refine_quad, if_true] at h
  rw [if_neg (by decide : ((2:Int) = 0) → False),
    if_neg (by decide : ((2:Int) = 1) → False)] at h
  split at h
  · cases h
  next m1 s2 hc0 =>
  split at h
  · cases h
  next m2 s3 hc1 =>
  injection h with h1
  subst h1
  obtain ⟨hs0, hl1, hf1, e1, he1⟩ := create_quad_shape _ _ _ _ _ _ _ _ _ hc0
  obtain ⟨hs1, hl2, hf2, e2, he2⟩ := create_quad_shape _ _ _ _ _ _ _ _ _ hc1
  simp only [elements_get_vertex_node, elements_unref_all_nodes,
    elements_withNactive, length_setElemF] at hs0 hl1
  set L := m.elements.length with hL
  rw [hl1] at hs1 hl2
  subst hs0
  subst hs1
  have hfr : ∀ j, j ≠ L → j ≠ L + 1 →
      m2.elemAt j =
        (m.setElemF eid fun p => { p with active := false }).elemAt j := by
    intro j h0 h1
    rw [hf2 j h1, hf1 j h0, elemAt_get_vertex_node, elemAt_get_vertex_node,
      elemAt_unref_all_nodes, elemAt_withNactive]
  refine ⟨?_, ?_, ?_, ?_, ?_, ?_⟩
  · rw [length_setElemF, length_foldl_setElemF]
    simp only [elements_setVnBnd, elements_setEnBndMarker,
      elements_withNactive]
    omega
  · intro j hj hje
    rw [elemAt_setElemF_ne _ _ _ _ hje,
      elemAt_foldl_setElemF_notmem _ _ _ _ (by
        simp only [List.mem_cons, List.not_mem_nil, or_false]
        omega)]
    simp only [elemAt_setVnBnd, elemAt_setEnBndMarker, elemAt_withNactive]
    rw [hfr j (by omega) (by omega), elemAt_setElemF_ne _ _ _ _ hje]
  · rw [elemAt_setElemF_self _ _ _ (by
      rw [length_foldl_setElemF]
      simp only [elements_setVnBnd, elements_setEnBndMarker,
        elements_withNactive]
      omega)]
    simp only []
    rw [elemAt_foldl_setElemF_notmem _ _ _ _ (by
        simp only [List.mem_cons, List.not_mem_nil, or_false]
        omega)]
    simp only [elemAt_setVnBnd, elemAt_setEnBndMarker, elemAt_withNactive]
    rw [hfr eid (by omega) (by omega), elemAt_setElemF_self _ _ _ heid]
  · intro s hsl hsu
    have hs2 : s < L + 2 := by
      revert hsu
      rw [length_setElemF, length_foldl_setElemF]
      simp only [elements_setVnBnd, elements_setEnBndMarker,
        elements_withNactive]
      omega
    have hse : s ≠ eid := by omega
    have hA : s ∈ [L, L + 1] := by
      simp only [List.mem_cons, List.not_mem_nil, or_false]
      omega
    have hB : ([L, L + 1] : List Nat).Nodup := by
      simp only [List.nodup_cons, List.mem_cons, List.not_mem_nil, or_false,
        not_or, List.nodup_nil, and_true, not_false_eq_true]
      omega
    rw [elemAt_setElemF_ne _ _ _ _ hse,
      elemAt_foldl_setElemF_mem2 _ _ _ _ hA hB]
    simp only [elements_setVnBnd, elements_setEnBndMarker,
      elements_withNactive]
    rw [if_pos (show s < m2.elements.length by omega)]
    simp only [elemAt_setVnBnd, elemAt_setEnBndMarker, elemAt_withNactive]
    have hcase : s = L ∨ s = L + 1 := by omega
    rcases hcase with rfl | rfl
    · rw [hf2 _ (by omega), he1]
      exact ⟨rfl, rfl, rfl, trivial⟩
    · rw [he2]
      exact ⟨rfl, rfl, rfl, trivial⟩
  · intro s hmem
    simp only [List.mem_cons, List.not_mem_nil, or_false, false_or,
      Option.some.injEq, reduceCtorEq] at hmem
    rw [length_setElemF, length_foldl_setElemF]
    simp only [elements_setVnBnd, elements_setEnBndMarker,
      elements_withNactive]
    rcases hmem with h | h <;> omega
  · intro s hsl hsu
    revert hsu
    rw [length_setElemF, length_foldl_setElemF]
    simp only [elements_setVnBnd, elements_setEnBndMarker,
      elements_withNactive]
    intro hsu
    simp only [List.mem_cons, List.not_mem_nil, or_false, false_or,
      Option.some.injEq, reduceCtorEq]
    omega

/-- Shape of a successful `refine_triangle_to_quads`: three fresh active quad
sons in slots 0-2, parent deactivated. -/
theorem refine_triangle_to_quads_shape (m : Mesh) (eid : Nat) (m' : Mesh)
    (heid : eid < m.elements.length)
    (h : m.refine_triangle_to_quads eid = .ok m') :
    RefinedShape m m' eid
      [some m.elements.length, some (m.elements.length + 1),
        some (m.elements.length + 2), none] 3 (some eid) := by
  simp only [Mesh.refine_triangle_to_quads] at h
  split at h
  · cases h
  next m1 s0 hc0 =>
  split at h
  · cases h
  next m2 s1 hc1 =>
  split at h
  · cases h
  next m3 s2 hc2 =>
  injection h with h1
  subst h1
  obtain ⟨hs0, hl1, hf1, e1, he1⟩ := create_quad_shape _ _ _ _ _ _ _ _ _ hc0
  obtain ⟨hs1, hl2, hf2, e2, he2⟩ := create_quad_shape _ _ _ _ _ _ _ _ _ hc1
  obtain ⟨hs2, hl3, hf3, e3, he3⟩ := create_quad_shape _ _ _ _ _ _ _ _ _ hc2
  simp only [elements_setNodeF, elements_get_vertex_node] at hs0 hl1
  set L := m.elements.length with hL
  rw [hl1] at hs1 hl2
  rw [hl2] at hs2 hl3
  subst hs0
  subst hs1
  subst hs2
  have hfr : ∀ j, j ≠ L → j ≠ L + 1 → j ≠ L + 2 →
      m3.elemAt j = m.elemAt j := by
    intro j h0 h1 h2
    rw [hf3 j h2, hf2 j h1, hf1 j h0, elemAt_setNodeF, elemAt_get_vertex_node,
      elemAt_get_vertex_node, elemAt_get_vertex_node, elemAt_get_vertex_node]
  refine ⟨?_, ?_, ?_, ?_, ?_, ?_⟩
  · rw [length_setElemF, length_foldl_setElemF]
    simp only [elements_setEnBndMarker, elements_unref_all_nodes,
      elements_withNactive, length_setElemF]
    omega
  · intro j hj hje
    rw [elemAt_setElemF_ne _ _ _ _ hje,
      elemAt_foldl_setElemF_notmem _ _ _ _ (by
        simp only [List.mem_cons, List.not_mem_nil, or_false]
        omega)]
    simp only [elemAt_setEnBndMarker, elemAt_unref_all_nodes,
      elemAt_withNactive]
    rw [elemAt_setElemF_ne _ _ _ _ hje]
    exact hfr j (by omega) (by omega) (by omega)
  · rw [elemAt_setElemF_self _ _ _ (by
      rw [length_foldl_setElemF]
      simp only [elements_setEnBndMarker, elements_unref_all_nodes,
        elements_withNactive, length_setElemF]
      omega)]
    simp only []
    rw [elemAt_foldl_setElemF_notmem _ _ _ _ (by
        simp only [List.mem_cons, List.not_mem_nil, or_false]
        omega)]
    simp only [elemAt_setEnBndMarker, elemAt_unref_all_nodes,
      elemAt_withNactive]
    rw [elemAt_setElemF_self _ _ _ (by omega),
      hfr eid (by omega) (by omega) (by omega)]
  · intro s hsl hsu
    have hs3 : s < L + 3 := by
      revert hsu
      rw [length_setElemF, length_foldl_setElemF]
      simp only [elements_setEnBndMarker, elements_unref_all_nodes,
        elements_withNactive, length_setElemF]
      omega
    have hse : s ≠ eid := by omega
    have hA : s ∈ [L, L + 1, L + 2] := by
      simp only [List.mem_cons, List.not_mem_nil, or_false]
      omega
    have hB : ([L, L + 1, L + 2] : List Nat).Nodup := by
      simp only [List.nodup_cons, List.mem_cons, List.not_mem_nil, or_false,
        not_or, List.nodup_nil, and_true, not_false_eq_true]
      omega
    rw [elemAt_setElemF_ne _ _ _ _ hse,
      elemAt_foldl_setElemF_mem2 _ _ _ _ hA hB]
    simp only [elements_setEnBndMarker, elements_unref_all_nodes,
      elements_withNactive, length_setElemF]
    rw [if_pos (show s < m3.elements.length by omega)]
    simp only [elemAt_setEnBndMarker, elemAt_unref_all_nodes,
      elemAt_withNactive]
    rw [elemAt_setElemF_ne _ _ _ _ hse]
    have hcase : s = L ∨ s = L + 1 ∨ s = L + 2 := by omega
    rcases hcase with rfl | rfl | rfl
    · rw [hf3 _ (by omega), hf2 _ (by omega), he1]
      exact ⟨rfl, rfl, rfl, trivial⟩
    · rw [hf3 _ (by omega), he2]
      exact ⟨rfl, rfl, rfl, trivial⟩
    · rw [he3]
      exact ⟨rfl, rfl, rfl, trivial⟩
  · intro s hmem
    simp only [List.mem_cons, List.not_mem_nil, or_false, false_or,
      Option.some.injEq, reduceCtorEq] at hmem
    rw [length_setElemF, length_foldl_setElemF]
    simp only [elements_setEnBndMarker, elements_unref_all_nodes,
      elements_withNactive, length_setElemF]
    rcases hmem with h | h | h <;> omega
  · intro s hsl hsu
    revert hsu
    rw [length_setElemF, length_foldl_setElemF]
    simp only [elements_setEnBndMarker, elements_unref_all_nodes,
      elements_withNactive, length_setElemF]
    intro hsu
    simp only [List.mem_cons, List.not_mem_nil, or_false, false_or,
      Option.some.injEq, reduceCtorEq]
    omega


theorem getD_mem_of_some {α : Type} (l : List (Option α)) (i : Nat) (s : α)
    (h : l.getD i none = some s) : some s ∈ l := by
  rcases Nat.lt_or_ge i l.length with hlt | hge
  · rw [List.getD_eq_getElem l none hlt] at h
    rw [← h]
    exact List.getElem_mem hlt
  · rw [List.getD_eq_default l none hge] at h
    cases h

theorem elemAt_setElemF_proj {β : Type} (φ : Element → β) (f : Element → Element)
    (hf : ∀ p, φ (f p) = φ p) (m : Mesh) (i j : Nat) :
    φ ((m.setElemF i f).elemAt j) = φ (m.elemAt j) := by
  by_cases hj : j = i
  · subst hj
    by_cases hlt : j < m.elements.length
    · rw [elemAt_setElemF_self _ _ _ hlt, hf]
    · unfold Mesh.setElemF Mesh.elemAt
      rw [List.set_eq_of_length_le (by omega)]
  · rw [elemAt_setElemF_ne _ _ _ _ hj]

theorem length_iroStep (eid : Nat) (ic : Int) (acc : Mesh) (i : Nat) :
    (iroStep eid ic acc i).elements.length = acc.elements.length := by
  unfold iroStep
  split
  · exact length_setElemF _ _ _
  · rfl

theorem iroStep_proj {β : Type} (φ : Element → β)
    (hφ : ∀ p v, φ { p with iro_cache := v } = φ p)
    (eid : Nat) (ic : Int) (acc : Mesh) (i j : Nat) :
    φ ((iroStep eid ic acc i).elemAt j) = φ (acc.elemAt j) := by
  unfold iroStep
  split
  · exact elemAt_setElemF_proj φ _ (fun p => hφ p ic) acc _ j
  · rfl

theorem foldl_iroStep_proj {β : Type} (φ : Element → β)
    (hφ : ∀ p v, φ { p with iro_cache := v } = φ p) (eid : Nat) (ic : Int) :
    ∀ (l : List Nat) (acc : Mesh) (j : Nat),
      φ ((l.foldl (iroStep eid ic) acc).elemAt j) = φ (acc.elemAt j) := by
  intro l
  induction l with
  | nil => intro acc j; rfl
  | cons a as ih =>
    intro acc j
    rw [List.foldl_cons, ih, iroStep_proj φ hφ]

theorem length_foldl_iroStep (eid : Nat) (ic : Int) :
    ∀ (l : List Nat) (acc : Mesh),
      (l.foldl (iroStep eid ic) acc).elements.length
        = acc.elements.length := by
  intro l
  induction l with
  | nil => intro acc; rfl
  | cons a as ih =>
    intro acc
    rw [List.foldl_cons, ih, length_iroStep]

/-- The `iro_cache` propagation loop only ever writes at ids that are sons of
`eid`, so every other element (and `eid` itself, whose sons never list it) is
untouched. -/
theorem foldl_iroStep_frame (eid : Nat) (ic : Int) (sns : List (Option Nat))
    (hne : ∀ s, some s ∈ sns → s ≠ eid) :
    ∀ (l : List Nat) (acc : Mesh), (acc.elemAt eid).sons = sns →
      ∀ j, (∀ s, some s ∈ sns → j ≠ s) →
        (l.foldl (iroStep eid ic) acc).elemAt j = acc.elemAt j := by
  intro l
  induction l with
  | nil => intro acc _ j _; rfl
  | cons a as ih =>
    intro acc hsons j hj
    rw [List.foldl_cons]
    have hstep : ∀ j', (∀ s, some s ∈ sns → j' ≠ s) →
        (iroStep eid ic acc a).elemAt j' = acc.elemAt j' := by
      intro j' hj'
      unfold iroStep
      split
      next s hs =>
        have hmem : some s ∈ sns := by
          rw [← hsons]
          exact getD_mem_of_some _ _ _ hs
        exact elemAt_setElemF_ne _ _ _ _ (hj' s hmem)
      · rfl
    have hsons' : ((iroStep eid ic acc a).elemAt eid).sons = sns := by
      rw [hstep eid (fun s hs => Ne.symm (hne s hs)), hsons]
    rw [ih _ hsons' j hj, hstep j hj]

/-- `RefinedShape` may be transported along element-store equality of its base
and result meshes. -/
theorem RefinedShape_congr (m0 m1 ma mb : Mesh) (eid : Nat)
    (sns : List (Option Nat)) (k : Nat) (pr : Option Nat)
    (h0 : m0.elements = m1.elements) (h2 : ma.elements = mb.elements)
    (h : RefinedShape m0 ma eid sns k pr) : RefinedShape m1 mb eid sns k pr := by
  obtain ⟨hl, hf, hp, hfe, hsf, hfs⟩ := h
  have e01 : ∀ j, m1.elemAt j = m0.elemAt j :=
    fun j => elemAt_congr _ _ _ h0.symm
  have eab : ∀ j, mb.elemAt j = ma.elemAt j :=
    fun j => elemAt_congr _ _ _ h2.symm
  refine ⟨?_, ?_, ?_, ?_, ?_, ?_⟩
  · rw [← h0, ← h2]; exact hl
  · intro j hj hje
    rw [eab, e01]
    exact hf j (by rw [h0]; exact hj) hje
  · rw [eab, e01]; exact hp
  · intro s h1 h2'
    rw [eab]
    exact hfe s (by rw [h0]; exact h1) (by rw [h2]; exact h2')
  · intro s hs
    rw [← h0, ← h2]
    exact hsf s hs
  · intro s h1 h2'
    exact hfs s (by rw [h0]; exact h1) (by rw [h2]; exact h2')

/-- The `iro_cache` loop preserves the refinement shape: it changes no field
the shape mentions. -/
theorem RefinedShape_foldl_iroStep (m mi : Mesh) (eid : Nat)
    (sns : List (Option Nat)) (k : Nat) (hlt : eid < m.elements.length)
    (hsh : RefinedShape m mi eid sns k (some eid)) (ic : Int) (l : List Nat) :
    RefinedShape m (l.foldl (iroStep eid ic) mi) eid sns k (some eid) := by
  have hne : ∀ s, some s ∈ sns → s ≠ eid := by
    intro s hs
    have := hsh.sonsFresh s hs
    omega
  have hsons : (mi.elemAt eid).sons = sns := by
    rw [hsh.parentElem]
  have hjfr : ∀ j, j < m.elements.length →
      (l.foldl (iroStep eid ic) mi).elemAt j = mi.elemAt j := by
    intro j hj
    refine foldl_iroStep_frame eid ic sns hne l mi hsons j ?_
    intro s hs
    have := hsh.sonsFresh s hs
    omega
  refine ⟨?_, ?_, ?_, ?_, ?_, ?_⟩
  · rw [length_foldl_iroStep]; exact hsh.len
  · intro j hj hje
    rw [hjfr j hj]
    exact hsh.frame j hj hje
  · rw [hjfr eid hlt]
    exact hsh.parentElem
  · intro s h1 h2
    have h2' : s < mi.elements.length := by
      rw [length_foldl_iroStep] at h2
      exact h2
    obtain ⟨hu, ha, hss, hpp⟩ := hsh.freshElem s h1 h2'
    refine ⟨?_, ?_, ?_, ?_⟩
    · rw [foldl_iroStep_proj (fun e => e.used) (fun _ _ => rfl)]; exact hu
    · rw [foldl_iroStep_proj (fun e => e.active) (fun _ _ => rfl)]; exact ha
    · rw [foldl_iroStep_proj (fun e => e.sons) (fun _ _ => rfl)]; exact hss
    · rw [foldl_iroStep_proj (fun e => e.parent) (fun _ _ => rfl)]; exact hpp
  · intro s hs
    have := hsh.sonsFresh s hs
    rw [length_foldl_iroStep]
    exact this
  · intro s h1 h2
    rw [length_foldl_iroStep] at h2
    exact hsh.freshSons s h1 h2

/-- Shape of a successful `refine_element`: some refinement split happened,
putting at least two sons under `eid`. -/
theorem refine_element_shape (m : Mesh) (eid : Nat) (r : Int) (m' : Mesh)
    (heid : eid < m.elements.length)
    (h : m.refine_element eid r = .ok m') :
    ∃ sns k, RefinedShape m m' eid sns k (some eid)
      ∧ 2 ≤ (sns.filterMap (fun x => x)).length := by
  simp only [Mesh.refine_element] at h
  set mR := ({ m with refinements := m.refinements ++ [(eid, r)] } : Mesh)
    with hmR
  have hel : mR.elements = m.elements := by rw [hmR]
  have heidR : eid < mR.elements.length := by rw [hel]; exact heid
  have lift : ∀ (sns : List (Option Nat)) (k : Nat) (m1 : Mesh) (ic : Int)
      (l : List Nat),
      RefinedShape mR m1 eid sns k (some eid) →
      2 ≤ (sns.filterMap (fun x => x)).length →
      ∃ sns' k', RefinedShape m
          ({ l.foldl (iroStep eid ic) m1 with
             seq := (l.foldl (iroStep eid ic) m1).seq + 1 } : Mesh)
          eid sns' k' (some eid)
        ∧ 2 ≤ (sns'.filterMap (fun x => x)).length := by
    intro sns k m1 ic l hsh hcnt
    refine ⟨sns, k, ?_, hcnt⟩
    exact RefinedShape_congr mR m (List.foldl (iroStep eid ic) m1 l) _
      eid sns k (some eid) hel rfl
      (RefinedShape_foldl_iroStep mR m1 eid sns k heidR hsh ic l)
  split at h
  · cases h
  next m1 heq =>
  injection h with h1
  subst h1
  split at heq
  · -- triangle
    split at heq
    · -- refinement 3: triangle to quads
      have hsh := refine_triangle_to_quads_shape mR eid m1 heidR heq
      rw [hel] at hsh
      exact lift _ _ _ _ _ hsh (by show 2 ≤ 3; omega)
    · -- other refinement: triangle to triangles
      have hsh := refine_triangle_to_triangles_shape mR eid m1 heidR heq
      rw [hel] at hsh
      exact lift _ _ _ _ _ hsh (by show 2 ≤ 4; omega)
  · -- quad
    by_cases h0 : r = 0
    · subst h0
      have hsh := refine_quad_shape0 mR eid m1 heidR heq
      rw [hel] at hsh
      exact lift _ _ _ _ _ hsh (by show 2 ≤ 4; omega)
    by_cases hq1 : r = 1
    · subst hq1
      have hsh := refine_quad_shape1 mR eid m1 heidR heq
      rw [hel] at hsh
      exact lift _ _ _ _ _ hsh (by show 2 ≤ 2; omega)
    by_cases hq2 : r = 2
    · subst hq2
      have hsh := refine_quad_shape2 mR eid m1 heidR heq
      rw [hel] at hsh
      exact lift _ _ _ _ _ hsh (by show 2 ≤ 2; omega)
    · exfalso
      simp only [Mesh.refine_quad, if_neg h0, if_neg hq1, if_neg hq2] at heq
      cases heq

/-- The per-element "active xor refined" invariant of claim C3: a used element
is either active with four empty son slots or inactive with at least two
sons. -/
def ElemInv (e : Element) : Prop :=
  e.used = true →
    (e.active = true ∧ e.sons = [none, none, none, none])
    ∨ (e.active = false ∧ 2 ≤ (e.sons.filterMap (fun x => x)).length)

/-- The invariant of claim C3 over a whole element store. -/
def MeshInv (m : Mesh) : Prop :=
  ∀ j, j < m.elements.length → ElemInv (m.elemAt j)

theorem MeshInv_of_RefinedShape (m m' : Mesh) (eid : Nat)
    (sns : List (Option Nat)) (k : Nat) (pr : Option Nat)
    (hsh : RefinedShape m m' eid sns k pr)
    (hcnt : 2 ≤ (sns.filterMap (fun x => x)).length)
    (hinv : MeshInv m) : MeshInv m' := by
  intro j hj
  by_cases hje : j = eid
  · subst hje
    rw [hsh.parentElem]
    intro _
    right
    exact ⟨rfl, hcnt⟩
  · by_cases hlt : j < m.elements.length
    · rw [hsh.frame j hlt hje]
      exact hinv j hlt
    · obtain ⟨hu, ha, hss, _⟩ := hsh.freshElem j (by omega) hj
      intro _
      left
      exact ⟨ha, hss⟩

/-- Error-propagating folds preserve any property each step preserves. -/
theorem foldE_pres {β α : Type} (P : β → Prop) (f : β → α → Except HErr β)
    (hf : ∀ b a b', f b a = .ok b' → P b → P b') :
    ∀ (l : List α) (b b' : β), foldE f b l = .ok b' → P b → P b' := by
  intro l
  induction l with
  | nil =>
    intro b b' h hp
    simp only [foldE] at h
    injection h with h1
    subst h1
    exact hp
  | cons a as ih =>
    intro b b' h hp
    simp only [foldE] at h
    split at h
    · cases h
    next b1 hb1 =>
    exact ih b1 b' h (hf b a b1 hb1 hp)

theorem MeshInv_refine_element_id (m : Mesh) (i r : Int) (m' : Mesh)
    (h : m.refine_element_id i r = .ok m') (hinv : MeshInv m) : MeshInv m' := by
  unfold Mesh.refine_element_id at h
  by_cases hr : r = -1
  · rw [if_pos hr] at h
    injection h with h1
    subst h1
    exact hinv
  · rw [if_neg hr] at h
    split at h
    · cases h
    next eid heid =>
    split_ifs at h with hu ha
    · have heid' : eid < m.elements.length := by
        unfold Mesh.get_element at heid
        split_ifs at heid with hb
        injection heid with h2
        subst h2
        push_neg at hb
        omega
      obtain ⟨sns, k, hsh, hcnt⟩ := refine_element_shape m eid r m' heid' h
      exact MeshInv_of_RefinedShape _ _ _ _ _ _ hsh hcnt hinv


theorem elements_withRefinements (m : Mesh) (v : List (Nat × Int)) :
    ({ m with refinements := v } : Mesh).elements = m.elements := rfl

theorem elemAt_withRefinements (m : Mesh) (v : List (Nat × Int)) (j : Nat) :
    ({ m with refinements := v } : Mesh).elemAt j = m.elemAt j := rfl

theorem setElemF_oob (m : Mesh) (i : Nat) (f : Element → Element)
    (h : m.elements.length ≤ i) : m.setElemF i f = m := by
  unfold Mesh.setElemF
  rw [List.set_eq_of_length_le h]

theorem length_sonRemoveStep (e : Element) (acc : Mesh) (i : Nat) :
    (sonRemoveStep e acc i).elements.length = acc.elements.length := by
  unfold sonRemoveStep
  split
  · rfl
  · simp only [elements_withNactive]
    rw [length_setElemF, elements_unref_all_nodes]

theorem length_foldl_sonRemoveStep (e : Element) :
    ∀ (l : List Nat) (acc : Mesh),
      (l.foldl (sonRemoveStep e) acc).elements.length
        = acc.elements.length := by
  intro l
  induction l with
  | nil => intro acc; rfl
  | cons a as ih =>
    intro acc
    rw [List.foldl_cons, ih, length_sonRemoveStep]

theorem elemAt_sonRemoveStep_cases (e : Element) (acc : Mesh) (i j : Nat) :
    (sonRemoveStep e acc i).elemAt j = acc.elemAt j
    ∨ ((sonRemoveStep e acc i).elemAt j).used = false := by
  unfold sonRemoveStep
  split
  · left; rfl
  next sid _ =>
    by_cases hje : j = sid
    · right
      simp only [elemAt_withNactive]
      rw [hje]
      by_cases hlt : sid < (acc.unref_all_nodes (acc.elemAt sid)).elements.length
      · rw [elemAt_setElemF_self _ _ _ hlt]
      · have hge : (acc.unref_all_nodes (acc.elemAt sid)).elements.length ≤ sid := by
          omega
        rw [setElemF_oob _ _ _ hge]
        show ((acc.unref_all_nodes
          (acc.elemAt sid)).elements.getD sid dummyElement).used = false
        rw [List.getD_eq_default _ _ hge]
        rfl
    · left
      simp only [elemAt_withNactive]
      rw [elemAt_setElemF_ne _ _ _ _ hje, elemAt_unref_all_nodes]

theorem elemAt_foldl_sonRemoveStep_cases (e : Element) :
    ∀ (l : List Nat) (acc : Mesh) (j : Nat),
      (l.foldl (sonRemoveStep e) acc).elemAt j = acc.elemAt j
      ∨ ((l.foldl (sonRemoveStep e) acc).elemAt j).used = false := by
  intro l
  induction l with
  | nil => intro acc j; left; rfl
  | cons a as ih =>
    intro acc j
    rw [List.foldl_cons]
    rcases ih (sonRemoveStep e acc a) j with hc | hc
    · rcases elemAt_sonRemoveStep_cases e acc a j with hc' | hc'
      · left; rw [hc, hc']
      · right; rw [hc]; exact hc'
    · right; exact hc

theorem elements_enRecreateStep (e : Element) (acc : Mesh × List Nat)
    (i : Nat) : (enRecreateStep e acc i).1.elements = acc.1.elements :=
  elements_get_edge_node _ _ _

theorem elements_foldl_enRecreateStep (e : Element) :
    ∀ (l : List Nat) (acc : Mesh × List Nat),
      (l.foldl (enRecreateStep e) acc).1.elements = acc.1.elements := by
  intro l
  induction l with
  | nil => intro acc; rfl
  | cons a as ih =>
    intro acc
    rw [List.foldl_cons, ih, elements_enRecreateStep]

theorem elemAt_foldl_enRecreateStep (e : Element) (l : List Nat)
    (acc : Mesh × List Nat) (j : Nat) :
    (l.foldl (enRecreateStep e) acc).1.elemAt j = acc.1.elemAt j :=
  elemAt_congr _ _ _ (elements_foldl_enRecreateStep e l acc)

theorem elements_foldl_markerRestoreStep (newEn : List Nat)
    (marks : List (Int × Int)) (l : List Nat) (m : Mesh) :
    (l.foldl (markerRestoreStep newEn marks) m).elements = m.elements :=
  elements_foldl_nodeop (markerRestoreStep newEn marks) (fun _ _ => rfl) l m

theorem elemAt_foldl_markerRestoreStep (newEn : List Nat)
    (marks : List (Int × Int)) (l : List Nat) (m : Mesh) (j : Nat) :
    (l.foldl (markerRestoreStep newEn marks) m).elemAt j = m.elemAt j :=
  elemAt_congr _ _ _ (elements_foldl_markerRestoreStep newEn marks l m)

/-- Element-store effect of a successful `unrefine_element_internal`: store
size unchanged, `eid` reactivated with cleared son slots, every other element
either untouched or (a removed son) now unused. -/
theorem unrefine_internal_shape (m : Mesh) (eid : Nat) (m' : Mesh)
    (heid : eid < m.elements.length)
    (h : m.unrefine_element_internal eid = .ok m') :
    m'.elements.length = m.elements.length
    ∧ (∀ j, j ≠ eid → (m'.elemAt j = m.elemAt j ∨ (m'.elemAt j).used = false))
    ∧ (m'.elemAt eid).active = true
    ∧ (m'.elemAt eid).sons = [none, none, none, none] := by
  simp only [Mesh.unrefine_element_internal] at h
  split_ifs at h with hact
  split at h
  · cases h
  next marks hmap =>
  injection h with h1
  subst h1
  set mL := ({ m with refinements := m.refinements ++ [(eid, -1)] } : Mesh)
    with hmL
  set e0 := mL.elemAt eid with he0
  set B := (List.range 4).foldl (sonRemoveStep e0) mL with hB
  set R := (List.range e0.nvert).foldl (enRecreateStep e0) (B, []) with hR
  have hmLlen : mL.elements.length = m.elements.length := by rw [hmL]
  have hBlen : B.elements.length = m.elements.length := by
    rw [hB, length_foldl_sonRemoveStep, hmLlen]
  have hRlen : R.1.elements.length = m.elements.length := by
    rw [hR, elements_foldl_enRecreateStep]
    exact hBlen
  refine ⟨?_, ?_, ?_, ?_⟩
  · rw [elements_foldl_markerRestoreStep]
    simp only [elements_withNactive]
    rw [length_setElemF, elements_ref_all_nodes, length_setElemF]
    exact hRlen
  · intro j hje
    rw [elemAt_foldl_markerRestoreStep]
    simp only [elemAt_withNactive]
    rw [elemAt_setElemF_ne _ _ _ _ hje, elemAt_ref_all_nodes,
      elemAt_setElemF_ne _ _ _ _ hje]
    show R.1.elemAt j = m.elemAt j ∨ (R.1.elemAt j).used = false
    rw [hR, elemAt_foldl_enRecreateStep]
    show B.elemAt j = m.elemAt j ∨ (B.elemAt j).used = false
    rcases elemAt_foldl_sonRemoveStep_cases e0 (List.range 4) mL j with hc | hc
    · rw [← hB] at hc
      left
      exact hc.trans (elemAt_withRefinements m _ j)
    · rw [← hB] at hc
      right
      exact hc
  · rw [elemAt_foldl_markerRestoreStep]
    simp only [elemAt_withNactive]
    rw [elemAt_setElemF_self _ _ _ (by
      rw [elements_ref_all_nodes, length_setElemF, hRlen]
      exact heid)]
  · rw [elemAt_foldl_markerRestoreStep]
    simp only [elemAt_withNactive]
    rw [elemAt_setElemF_self _ _ _ (by
      rw [elements_ref_all_nodes, length_setElemF, hRlen]
      exact heid)]
    simp only []
    rw [elemAt_ref_all_nodes,
      elemAt_setElemF_self _ _ _ (by rw [hRlen]; exact heid)]

theorem MeshInv_unrefine_internal (m : Mesh) (eid : Nat) (m' : Mesh)
    (heid : eid < m.elements.length)
    (h : m.unrefine_element_internal eid = .ok m')
    (hinv : MeshInv m) : MeshInv m' := by
  obtain ⟨hl, hfr, hact, hsons⟩ := unrefine_internal_shape m eid m' heid h
  intro j hj
  by_cases hje : j = eid
  · subst hje
    intro _
    left
    exact ⟨hact, hsons⟩
  · rcases hfr j hje with hc | hc
    · rw [hc]
      exact hinv j (by rw [hl] at hj; exact hj)
    · intro hused
      rw [hused] at hc
      cases hc

theorem get_element_lt (m : Mesh) (i : Int) (eid : Nat)
    (h : m.get_element i = .ok eid) : eid < m.elements.length := by
  unfold Mesh.get_element at h
  split_ifs at h with hb
  injection h with h2
  subst h2
  push_neg at hb
  omega

/-- Derefinement preserves both the element-store size and the C3
invariant. -/
theorem unrefine_id_pres : ∀ (fuel : Nat) (m : Mesh) (i : Int) (m' : Mesh),
    Mesh.unrefine_element_id fuel m i = .ok m' →
    m'.elements.length = m.elements.length ∧ (MeshInv m → MeshInv m') := by
  intro fuel
  induction fuel with
  | zero =>
    intro m i m' h
    simp only [Mesh.unrefine_element_id] at h
    cases h
  | succ fuel ih =>
    intro m i m' h
    simp only [Mesh.unrefine_element_id] at h
    split at h
    · cases h
    next eid heid =>
    have heid' : eid < m.elements.length := get_element_lt _ _ _ heid
    split_ifs at h with hact
    · injection h with h1
      subst h1
      exact ⟨rfl, fun hv => hv⟩
    · split at h
      · cases h
      next m1 heq1 =>
      split at h
      · cases h
      next m2 heq2 =>
      injection h with h1
      subst h1
      have hpres : m1.elements.length = m.elements.length
          ∧ (MeshInv m → MeshInv m1) := by
        refine foldE_pres
          (fun b => b.elements.length = m.elements.length
            ∧ (MeshInv m → MeshInv b)) _ ?_ _ _ _ heq1 ⟨rfl, fun hv => hv⟩
        intro b a b' hb hPb
        split at hb
        · injection hb with h2
          subst h2
          exact hPb
        next sid _ =>
          obtain ⟨hlen, hv⟩ := ih b _ b' hb
          exact ⟨by rw [hlen, hPb.1], fun hm => hv (hPb.2 hm)⟩
      have heid1 : eid < m1.elements.length := by
        rw [hpres.1]
        exact heid'
      obtain ⟨hl2, _, _, _⟩ := unrefine_internal_shape m1 eid m2 heid1 heq2
      refine ⟨?_, ?_⟩
      · show m2.elements.length = _
        rw [hl2, hpres.1]
      · intro hv
        have h2 : MeshInv m2 :=
          MeshInv_unrefine_internal m1 eid m2 heid1 heq2 (hpres.2 hv)
        exact h2


/-- Vertex access on the out-of-bounds dummy element always yields vertex 0
(the empty `vn` array's default). -/
theorem vnAt_dummy (i : Nat) : dummyElement.vnAt i = 0 := rfl

/-- Common core of the regularization splits: deactivating `eid`, appending
fresh active sons and storing a son list with at least two entries preserves
the C3 invariant. -/
theorem MeshInv_split_generic (m mb : Mesh) (eid : Nat)
    (sns : List (Option Nat))
    (heid : eid < m.elements.length)
    (hlen : m.elements.length ≤ mb.elements.length)
    (hframe : ∀ j, j < m.elements.length → j ≠ eid → mb.elemAt j = m.elemAt j)
    (heidat : mb.elemAt eid = { m.elemAt eid with active := false })
    (hfresh : ∀ s, m.elements.length ≤ s → s < mb.elements.length →
      (mb.elemAt s).active = true
        ∧ (mb.elemAt s).sons = [none, none, none, none])
    (hcnt : 2 ≤ (sns.filterMap (fun x => x)).length)
    (hinv : MeshInv m) :
    MeshInv (mb.setElemF eid fun p => { p with sons := sns }) := by
  intro j hj
  rw [length_setElemF] at hj
  by_cases hje : j = eid
  · subst hje
    rw [elemAt_setElemF_self _ _ _ (by omega), heidat]
    intro _
    right
    exact ⟨rfl, hcnt⟩
  · rw [elemAt_setElemF_ne _ _ _ _ hje]
    by_cases hlt : j < m.elements.length
    · rw [hframe j hlt hje]
      exact hinv j hlt
    · intro _
      left
      exact hfresh j (by omega) hj

/-- `regularize_triangle` preserves the C3 invariant. -/
theorem MeshInv_regularize_triangle (m : Mesh) (par : List (Option Int))
    (eid : Nat) (m' : Mesh) (par' : List (Option Int))
    (h : m.regularize_triangle par eid = .ok (m', par'))
    (hinv : MeshInv m) : MeshInv m' := by
  simp only [Mesh.regularize_triangle] at h
  split at h
  · cases h
  next m2 heq =>
  injection h with hp
  injection hp with hm hpar
  subst hm
  split_ifs at heq with h3 hpos h1 h2
  · -- sum = 3: isotropic refinement
    exact MeshInv_refine_element_id _ _ _ _ heq hinv
  · -- sum = 1: two-triangle split
    by_cases heid : eid < m.elements.length
    · split at heq
      · cases heq
      next v4 hpeek =>
      split at heq
      · cases heq
      next ma t0 hc0 =>
      split at heq
      · cases heq
      next mb t1 hc1 =>
      injection heq with hq
      subst hq
      obtain ⟨hs0, hl1, hf1, e1, he1⟩ := create_triangle_shape _ _ _ _ _ _ _ _ hc0
      obtain ⟨hs1, hl2, hf2, e2, he2⟩ := create_triangle_shape _ _ _ _ _ _ _ _ hc1
      simp only [elements_unref_all_nodes, elements_withNactive,
        length_setElemF] at hs0 hl1
      rw [hl1] at hs1 hl2
      subst hs0
      subst hs1
      refine MeshInv_split_generic m _ eid _ heid ?_ ?_ ?_ ?_
        (by show 2 ≤ 2; omega) hinv
      · simp only [elements_setEnBndMarker]
        omega
      · intro j hj hje
        simp only [elemAt_setEnBndMarker]
        rw [hf2 j (by omega), hf1 j (by omega), elemAt_unref_all_nodes,
          elemAt_withNactive, elemAt_setElemF_ne _ _ _ _ hje]
      · simp only [elemAt_setEnBndMarker]
        rw [hf2 eid (by omega), hf1 eid (by omega), elemAt_unref_all_nodes,
          elemAt_withNactive, elemAt_setElemF_self _ _ _ heid]
      · intro s hsa hsb
        simp only [elements_setEnBndMarker] at hsb
        simp only [elemAt_setEnBndMarker]
        have hcase : s = m.elements.length ∨ s = m.elements.length + 1 := by
          omega
        rcases hcase with rfl | rfl
        · rw [hf2 _ (by omega), he1]
          exact ⟨rfl, rfl⟩
        · rw [he2]
          exact ⟨rfl, rfl⟩
    · exfalso
      have hd : m.elemAt eid = dummyElement :=
        List.getD_eq_default _ _ (by omega)
      rw [hd] at h1
      simp only [vnAt_dummy] at h1
      omega
  · -- sum = 2: three-triangle split
    by_cases heid : eid < m.elements.length
    · split at heq
      next _ _ v4 v5 hpk1 hpk2 =>
        split at heq
        · cases heq
        next ma t0 hc0 =>
        split at heq
        · cases heq
        next mb t1 hc1 =>
        split at heq
        · cases heq
        next mc t2 hc2 =>
        injection heq with hq
        subst hq
        obtain ⟨hs0, hl1, hf1, e1, he1⟩ := create_triangle_shape _ _ _ _ _ _ _ _ hc0
        obtain ⟨hs1, hl2, hf2, e2, he2⟩ := create_triangle_shape _ _ _ _ _ _ _ _ hc1
        obtain ⟨hs2, hl3, hf3, e3, he3⟩ := create_triangle_shape _ _ _ _ _ _ _ _ hc2
        simp only [elements_unref_all_nodes, elements_withNactive,
          length_setElemF] at hs0 hl1
        rw [hl1] at hs1 hl2
        rw [hl2] at hs2 hl3
        subst hs0
        subst hs1
        subst hs2
        refine MeshInv_split_generic m _ eid _ heid ?_ ?_ ?_ ?_
          (by show 2 ≤ 3; omega) hinv
        · simp only [elements_setEnBndMarker]
          omega
        · intro j hj hje
          simp only [elemAt_setEnBndMarker]
          rw [hf3 j (by omega), hf2 j (by omega), hf1 j (by omega),
            elemAt_unref_all_nodes, elemAt_withNactive,
            elemAt_setElemF_ne _ _ _ _ hje]
        · simp only [elemAt_setEnBndMarker]
          rw [hf3 eid (by omega), hf2 eid (by omega), hf1 eid (by omega),
            elemAt_unref_all_nodes, elemAt_withNactive,
            elemAt_setElemF_self _ _ _ heid]
        · intro s hsa hsb
          simp only [elements_setEnBndMarker] at hsb
          simp only [elemAt_setEnBndMarker]
          have hcase : s = m.elements.length ∨ s = m.elements.length + 1
              ∨ s = m.elements.length + 2 := by
            omega
          rcases hcase with rfl | rfl | rfl
          · rw [hf3 _ (by omega), hf2 _ (by omega), he1]
            exact ⟨rfl, rfl⟩
          · rw [hf3 _ (by omega), he2]
            exact ⟨rfl, rfl⟩
          · rw [he3]
            exact ⟨rfl, rfl⟩
      next _ _ _ =>
        cases heq
    · exfalso
      have hd : m.elemAt eid = dummyElement :=
        List.getD_eq_default _ _ (by omega)
      rw [hd] at h2
      simp only [vnAt_dummy] at h2
      omega
  · -- 0 < sum but neither 1 nor 2: unchanged
    injection heq with hq
    subst hq
    exact hinv
  · -- sum = 0: unchanged
    injection heq with hq
    subst hq
    exact hinv


/-- Shape of a successful `refine_element_id` with a real refinement kind: the
bounds-checked id refines with at least two sons. -/
theorem refine_element_id_shape (m : Mesh) (idArg r : Int) (m' : Mesh)
    (hr : r ≠ -1) (h : m.refine_element_id idArg r = .ok m') :
    ∃ sns k, idArg.toNat < m.elements.length
      ∧ RefinedShape m m' idArg.toNat sns k (some idArg.toNat) := by
  unfold Mesh.refine_element_id at h
  rw [if_neg hr] at h
  split at h
  · cases h
  next eid heid =>
  split_ifs at h with hu ha
  have heid' : eid < m.elements.length := get_element_lt _ _ _ heid
  have heq : eid = idArg.toNat := by
    unfold Mesh.get_element at heid
    split_ifs at heid
    injection heid with h2
    exact h2.symm
  subst heq
  obtain ⟨sns, k, hsh, _⟩ := refine_element_shape m idArg.toNat r m' heid' h
  exact ⟨sns, k, heid', hsh⟩

theorem length_regInitStep (m : Mesh) (acc : List (Option Int)) (id : Nat) :
    (regInitStep m acc id).length = acc.length := by
  unfold regInitStep
  split
  · exact List.length_set acc id _
  · rfl

theorem length_foldl_regInitStep (m : Mesh) :
    ∀ (l : List Nat) (acc : List (Option Int)),
      (l.foldl (regInitStep m) acc).length = acc.length := by
  intro l
  induction l with
  | nil => intro acc; rfl
  | cons a as ih =>
    intro acc
    rw [List.foldl_cons, ih, length_regInitStep]

theorem regInitStep_getD_ne (m : Mesh) (acc : List (Option Int)) (a idx : Nat)
    (h : idx ≠ a) :
    (regInitStep m acc a).getD idx none = acc.getD idx none := by
  unfold regInitStep
  split
  · exact getD_set_ne _ _ _ _ _ h
  · rfl

theorem regInit_fold_frame (m : Mesh) :
    ∀ (l : List Nat) (acc : List (Option Int)) (idx : Nat), idx ∉ l →
      (l.foldl (regInitStep m) acc).getD idx none = acc.getD idx none := by
  intro l
  induction l with
  | nil => intro acc idx _; rfl
  | cons a as ih =>
    intro acc idx hmem
    rw [List.foldl_cons,
      ih _ _ (fun hm2 => hmem (List.mem_cons_of_mem a hm2)),
      regInitStep_getD_ne m acc a idx (fun hc => hmem (by
        rw [hc]
        exact List.mem_cons_self a as))]

theorem regInit_fold_getD (m : Mesh) :
    ∀ (l : List Nat) (acc : List (Option Int)) (idx : Nat),
      idx ∈ l → l.Nodup → idx < acc.length →
      (m.elemAt idx).used = true → (m.elemAt idx).active = true →
      (l.foldl (regInitStep m) acc).getD idx none = some (idx : Int) := by
  intro l
  induction l with
  | nil =>
    intro acc idx hmem
    simp at hmem
  | cons a as ih =>
    intro acc idx hmem hnd hlen hu ha
    rw [List.foldl_cons]
    rcases List.mem_cons.mp hmem with heq | hmem2
    · subst heq
      rw [regInit_fold_frame m as _ idx (List.nodup_cons.mp hnd).1]
      unfold regInitStep
      rw [if_pos ⟨hu, ha⟩]
      exact getD_set_self _ _ _ _ hlen
    · exact ih _ idx hmem2 (List.nodup_cons.mp hnd).2
        (by rw [length_regInitStep]; exact hlen) hu ha

/-- `regularize`'s parent array is initialized to map every used active
element id to itself. -/
theorem regInitParents_getD (m : Mesh) (idx : Nat)
    (hidx : idx < m.elements.length)
    (hu : (m.elemAt idx).used = true) (ha : (m.elemAt idx).active = true) :
    (regInitParents m).getD idx none = some (idx : Int) := by
  unfold regInitParents
  exact regInit_fold_getD m (List.range m.elements.length) _ idx
    (List.mem_range.mpr hidx) (List.nodup_range _)
    (by rw [List.length_replicate]; omega) hu ha

theorem length_regInitParents (m : Mesh) :
    (regInitParents m).length = 2 * m.elements.length := by
  unfold regInitParents
  rw [length_foldl_regInitStep, List.length_replicate]

/-- Every son slot of a freshly refined element points past the pre-refinement
store. -/
theorem RefinedShape_sonAt (m m' : Mesh) (eid : Nat) (sns : List (Option Nat))
    (k : Nat) (pr : Option Nat) (hsh : RefinedShape m m' eid sns k pr)
    (i s : Nat) (h : (m'.elemAt eid).sonAt i = some s) :
    m.elements.length ≤ s := by
  have hsons : (m'.elemAt eid).sons = sns := by rw [hsh.parentElem]
  unfold Element.sonAt at h
  rw [hsons] at h
  exact (hsh.sonsFresh s (getD_mem_of_some _ _ _ h)).1

/-- `assign_parent` writes only at the (fresh) son id: entries below any bound
under all the sons are untouched, and the array never shrinks. -/
theorem assign_parent_pres (m' : Mesh) (par : List (Option Int)) (eid a : Nat)
    (L0 : Nat)
    (hs : ∀ i s, (m'.elemAt eid).sonAt i = some s → L0 ≤ s) :
    par.length ≤ (assign_parent m' par eid a).length
    ∧ ∀ idx, idx < L0 → idx < par.length →
        (assign_parent m' par eid a).getD idx none = par.getD idx none := by
  unfold assign_parent
  split
  · exact ⟨Nat.le_refl _, fun _ _ _ => rfl⟩
  next s hsome =>
    have hLs : L0 ≤ s := hs a s hsome
    by_cases hgrow : par.length ≤ s
    · rw [if_pos hgrow]
      refine ⟨?_, ?_⟩
      · rw [List.length_set, List.length_append, List.length_replicate]
        omega
      · intro idx hidx hlen
        rw [getD_set_ne _ _ _ _ _ (by omega), getD_append_lt _ _ _ _ hlen]
    · rw [if_neg hgrow]
      refine ⟨?_, ?_⟩
      · rw [List.length_set]
      · intro idx hidx hlen
        rw [getD_set_ne _ _ _ _ _ (by omega)]

theorem foldl_assign_parent_pres (m' : Mesh) (eid : Nat) (L0 : Nat)
    (hs : ∀ i s, (m'.elemAt eid).sonAt i = some s → L0 ≤ s) :
    ∀ (l : List Nat) (par : List (Option Int)),
      par.length ≤ (l.foldl (fun acc i => assign_parent m' acc eid i)
        par).length
      ∧ ∀ idx, idx < L0 → idx < par.length →
          (l.foldl (fun acc i => assign_parent m' acc eid i) par).getD idx none
            = par.getD idx none := by
  intro l
  induction l with
  | nil => intro par; exact ⟨Nat.le_refl _, fun _ _ _ => rfl⟩
  | cons a as ih =>
    intro par
    rw [List.foldl_cons]
    obtain ⟨hl1, hg1⟩ := assign_parent_pres m' par eid a L0 hs
    obtain ⟨hl2, hg2⟩ := ih (assign_parent m' par eid a)
    refine ⟨Nat.le_trans hl1 hl2, ?_⟩
    intro idx hidx hlen
    rw [hg2 idx hidx (by omega), hg1 idx hidx hlen]

/-- One scan visit keeps every pre-call active element's parent entry: a
refinement writes the parent array only at the fresh son ids. -/
theorem regularizeStep_par_pres (m0 : Mesh) (n : Int) (st st' : RegSt)
    (id0 : Nat) (h : regularizeStep n st id0 = .ok st')
    (hm : m0.elements.length ≤ st.m.elements.length)
    (hp : m0.elements.length ≤ st.par.length)
    (hq : ∀ idx, idx < m0.elements.length → (m0.elemAt idx).used = true →
      (m0.elemAt idx).active = true → st.par.getD idx none = some (idx : Int)) :
    m0.elements.length ≤ st'.m.elements.length
    ∧ m0.elements.length ≤ st'.par.length
    ∧ ∀ idx, idx < m0.elements.length → (m0.elemAt idx).used = true →
        (m0.elemAt idx).active = true →
        st'.par.getD idx none = some (idx : Int) := by
  have main : ∀ (iso : Int) (m' : Mesh), 0 ≤ iso →
      st.m.refine_element_id (id0 : Int) iso = .ok m' →
      st' = (⟨m', List.foldl (fun acc i => assign_parent m' acc id0 i) st.par
        (List.range 4), false⟩ : RegSt) →
      m0.elements.length ≤ st'.m.elements.length
      ∧ m0.elements.length ≤ st'.par.length
      ∧ ∀ idx, idx < m0.elements.length → (m0.elemAt idx).used = true →
          (m0.elemAt idx).active = true →
          st'.par.getD idx none = some (idx : Int) := by
    intro iso m' hiso0 href hst
    subst hst
    obtain ⟨sns, k, hlt, hsh⟩ := refine_element_id_shape st.m _ _ m'
      (by omega) href
    rw [Int.toNat_natCast] at hlt hsh
    have hs : ∀ i s, (m'.elemAt id0).sonAt i = some s →
        m0.elements.length ≤ s := by
      intro i s hss
      have := RefinedShape_sonAt _ _ _ _ _ _ hsh i s hss
      omega
    obtain ⟨hl, hg⟩ := foldl_assign_parent_pres m' id0 m0.elements.length hs
      (List.range 4) st.par
    refine ⟨?_, ?_, ?_⟩
    · show m0.elements.length ≤ m'.elements.length
      have := hsh.len
      omega
    · exact Nat.le_trans hp hl
    · intro idx hidx hu ha
      show (List.foldl (fun acc i => assign_parent m' acc id0 i) st.par
        (List.range 4)).getD idx none = some (idx : Int)
      rw [hg idx hidx (by omega), hq idx hidx hu ha]
  simp only [regularizeStep] at h
  split_ifs at h with hcond htri hiso hiso2
  · split at h
    · cases h
    next m' href =>
    injection h with h1
    exact main _ m' (by omega) href h1.symm
  · injection h with h1
    subst h1
    exact ⟨hm, hp, hq⟩
  · split at h
    · cases h
    next m' href =>
    injection h with h1
    exact main _ m' (by omega) href h1.symm
  · injection h with h1
    subst h1
    exact ⟨hm, hp, hq⟩
  · injection h with h1
    subst h1
    exact ⟨hm, hp, hq⟩

theorem regularizePass_par_pres (m0 : Mesh) (n : Int) (m : Mesh)
    (par : List (Option Int)) (st : RegSt)
    (h : regularizePass n m par = .ok st)
    (hm : m0.elements.length ≤ m.elements.length)
    (hp : m0.elements.length ≤ par.length)
    (hq : ∀ idx, idx < m0.elements.length → (m0.elemAt idx).used = true →
      (m0.elemAt idx).active = true → par.getD idx none = some (idx : Int)) :
    m0.elements.length ≤ st.m.elements.length
    ∧ m0.elements.length ≤ st.par.length
    ∧ ∀ idx, idx < m0.elements.length → (m0.elemAt idx).used = true →
        (m0.elemAt idx).active = true →
        st.par.getD idx none = some (idx : Int) := by
  unfold regularizePass at h
  exact foldE_pres
    (fun b : RegSt => m0.elements.length ≤ b.m.elements.length
      ∧ m0.elements.length ≤ b.par.length
      ∧ ∀ idx, idx < m0.elements.length → (m0.elemAt idx).used = true →
          (m0.elemAt idx).active = true →
          b.par.getD idx none = some (idx : Int))
    (regularizeStep n)
    (fun b a b' hb hPb =>
      regularizeStep_par_pres m0 n b b' a hb hPb.1 hPb.2.1 hPb.2.2)
    _ _ _ h ⟨hm, hp, hq⟩

theorem regularizeLoop_par_pres (m0 : Mesh) (n : Int) :
    ∀ (fuel : Nat) (m : Mesh) (par : List (Option Int))
      (r : Mesh × List (Option Int)),
      regularizeLoop n fuel m par = .ok r →
      m0.elements.length ≤ m.elements.length →
      m0.elements.length ≤ par.length →
      (∀ idx, idx < m0.elements.length → (m0.elemAt idx).used = true →
        (m0.elemAt idx).active = true → par.getD idx none = some (idx : Int)) →
      ∀ idx, idx < m0.elements.length → (m0.elemAt idx).used = true →
        (m0.elemAt idx).active = true →
        r.2.getD idx none = some (idx : Int) := by
  intro fuel
  induction fuel with
  | zero => intro m par r h; cases h
  | succ fuel ih =>
    intro m par r h hm hp hq
    simp only [regularizeLoop] at h
    cases hpass : regularizePass n m par with
    | error e => rw [hpass] at h; cases h
    | ok st =>
      simp only [hpass] at h
      obtain ⟨h1, h2, h3⟩ := regularizePass_par_pres m0 n m par st hpass hm hp hq
      by_cases hok : st.ok = true
      · rw [if_pos hok] at h
        cases h
        exact h3
      · rw [if_neg hok] at h
        exact ih st.m st.par r h h1 h2 h3


/-- A negative triangle scan verdict means no edge degree exceeds the bound. -/
theorem regTriIso_neg (m : Mesh) (e : Element) (n : Int)
    (h : regTriIso m e n < 0) :
    ∀ i, i < e.nvert →
      (m.get_edge_degree (e.vnAt i) (e.vnAt (e.next_vert i)) : Int) ≤ n := by
  intro i hi
  by_contra hdeg
  push_neg at hdeg
  have hany : ((List.range e.nvert).any (fun i =>
      n < (m.get_edge_degree (e.vnAt i) (e.vnAt (e.next_vert i)) : Int))) = true := by
    simp only [List.any_eq_true]
    exact ⟨i, List.mem_range.mpr hi, by simpa using hdeg⟩
  rw [regTriIso, if_pos hany] at h
  omega

/-- A negative quad scan verdict means no edge degree exceeds the bound. -/
theorem regQuadIso_neg (m : Mesh) (e : Element) (n : Int)
    (h : regQuadIso m e n < 0) :
    ∀ i, i < e.nvert →
      (m.get_edge_degree (e.vnAt i) (e.vnAt (e.next_vert i)) : Int) ≤ n := by
  intro i hi
  by_contra hdeg
  push_neg at hdeg
  have hany : ((List.range e.nvert).any (fun i =>
      n < (m.get_edge_degree (e.vnAt i) (e.vnAt (e.next_vert i)) : Int))) = true := by
    simp only [List.any_eq_true]
    exact ⟨i, List.mem_range.mpr hi, by simpa using hdeg⟩
  rw [regQuadIso] at h
  split_ifs at h with h1 h2 h3 <;> omega

/-- The element check carried by one `regularize` scan visit: every edge of a
used active element has degree at most `n`. -/
def DegreeOK (n : Int) (m : Mesh) (id : Nat) : Prop :=
  (m.elemAt id).used = true → (m.elemAt id).active = true →
    ∀ i, i < (m.elemAt id).nvert →
      (m.get_edge_degree ((m.elemAt id).vnAt i)
        ((m.elemAt id).vnAt ((m.elemAt id).next_vert i)) : Int) ≤ n

/-- A scan visit that leaves the `ok` flag set left the state unchanged and
certifies the visited element's edge degrees. -/
theorem regularizeStep_ok_true (n : Int) (st : RegSt) (id : Nat) (st' : RegSt)
    (h : regularizeStep n st id = .ok st') (hok : st'.ok = true) :
    st' = st ∧ DegreeOK n st.m id := by
  unfold regularizeStep at h
  by_cases hua : (st.m.elemAt id).used = true ∧ (st.m.elemAt id).active = true
  · rw [if_pos hua] at h
    by_cases hiso : (0 : Int) ≤
        (if (st.m.elemAt id).is_triangle then regTriIso st.m (st.m.elemAt id) n
         else regQuadIso st.m (st.m.elemAt id) n)
    · rw [if_pos hiso] at h
      cases hr : st.m.refine_element_id (id : Int)
          (if (st.m.elemAt id).is_triangle then regTriIso st.m (st.m.elemAt id) n
           else regQuadIso st.m (st.m.elemAt id) n) with
      | error er => rw [hr] at h; cases h
      | ok m' =>
        rw [hr] at h
        cases h
        cases hok
    · rw [if_neg hiso] at h
      cases h
      push_neg at hiso
      refine ⟨rfl, fun _ _ i hi => ?_⟩
      by_cases ht : (st.m.elemAt id).is_triangle
      · rw [if_pos ht] at hiso
        exact regTriIso_neg st.m (st.m.elemAt id) n hiso i hi
      · rw [if_neg ht] at hiso
        exact regQuadIso_neg st.m (st.m.elemAt id) n hiso i hi
  · rw [if_neg hua] at h
    cases h
    exact ⟨rfl, fun hu ha => absurd ⟨hu, ha⟩ hua⟩

/-- A fold whose every `ok`-flagged step fixes the state: if the final state
is flagged, the fold was the identity and every item passed its check. -/
theorem foldE_fixpoint {σ α : Type} (f : σ → α → Except HErr σ)
    (okp : σ → Bool) (Q : σ → α → Prop)
    (hstep : ∀ s a s', f s a = .ok s' → okp s' = true → s' = s ∧ Q s a) :
    ∀ (l : List α) (s sf : σ), foldE f s l = .ok sf → okp sf = true →
      sf = s ∧ ∀ a ∈ l, Q s a := by
  intro l
  induction l with
  | nil =>
    intro s sf h hok
    cases h
    exact ⟨rfl, by simp⟩
  | cons a as ih =>
    intro s sf h hok
    simp only [foldE] at h
    cases h1 : f s a with
    | error e => rw [h1] at h; cases h
    | ok s1 =>
      rw [h1] at h
      obtain ⟨rfl, hQ⟩ := ih s1 sf h hok
      obtain ⟨rfl, hq⟩ := hstep s a sf h1 hok
      refine ⟨rfl, fun b hb => ?_⟩
      rcases List.mem_cons.mp hb with hb | hb
      · rw [hb]; exact hq
      · exact hQ b hb

/-- A pass of the regularization scan that ends with the `ok` flag set changed
nothing and certifies every element id in range. -/
theorem regularizePass_fix (n : Int) (m : Mesh) (par : List (Option Int))
    (st : RegSt) (h : regularizePass n m par = .ok st) (hok : st.ok = true) :
    st = ⟨m, par, true⟩ ∧ ∀ id, id < m.elements.length → DegreeOK n m id := by
  obtain ⟨h1, h2⟩ := foldE_fixpoint (regularizeStep n) RegSt.ok
    (fun s id => DegreeOK n s.m id)
    (fun s a s' hs hk => regularizeStep_ok_true n s a s' hs hk)
    (List.range m.elements.length) ⟨m, par, true⟩ st h hok
  exact ⟨h1, fun id hid => h2 id (List.mem_range.mpr hid)⟩

/-- Out-of-range element access yields the unused placeholder. -/
theorem elemAt_oob (m : Mesh) (id : Nat) (h : m.elements.length ≤ id) :
    m.elemAt id = dummyElement :=
  List.getD_eq_default _ _ h

/-- When `regularize`'s do/while loop exits normally, the final mesh is a
global fixed point: every used active element's every edge degree is at most
`n`. -/
theorem regularizeLoop_post (n : Int) :
    ∀ (fuel : Nat) (m : Mesh) (par : List (Option Int))
      (r : Mesh × List (Option Int)),
      regularizeLoop n fuel m par = .ok r →
      ∀ id, DegreeOK n r.1 id := by
  intro fuel
  induction fuel with
  | zero => intro m par r h; cases h
  | succ fuel ih =>
    intro m par r h
    simp only [regularizeLoop] at h
    cases hp : regularizePass n m par with
    | error e => rw [hp] at h; cases h
    | ok st =>
      simp only [hp] at h
      by_cases hok : st.ok = true
      · rw [if_pos hok] at h
        cases h
        obtain ⟨hst, hQ⟩ := regularizePass_fix n m par st hp hok
        subst hst
        intro id
        by_cases hid : id < m.elements.length
        · exact hQ id hid
        · intro hu
          rw [elemAt_oob m id (by omega)] at hu
          cases hu
      · rw [if_neg hok] at h
        exact ih st.m st.par r h

/-- **C1.** For every mesh and every `n ≥ 1`: when `regularize(n)` returns,
every used active element of the resulting mesh has, on every one of its
edges, a recursive edge refinement degree (`get_edge_degree` over the edge's
endpoint vertices) of at most `n` — the iterate-to-convergence do/while loop
exits only at a global fixed point with no violating element (in particular,
after `regularize(1)` every active element's edge subdivision level is at most
one deeper than its own, so adjacent active elements differ by at most one
level). -/
theorem C1_regularize_bound (fuel : Nat) (m : Mesh) (n : Int) (hn : 1 ≤ n)
    (r : Mesh × List (Option Int)) (hok : m.regularize fuel n = .ok r) :
    ∀ id, (r.1.elemAt id).used = true → (r.1.elemAt id).active = true →
      ∀ i, i < (r.1.elemAt id).nvert →
        (r.1.get_edge_degree ((r.1.elemAt id).vnAt i)
          ((r.1.elemAt id).vnAt ((r.1.elemAt id).next_vert i)) : Int) ≤ n := by
  unfold Mesh.regularize at hok
  have hnlt : ¬(n < 1) := by omega
  rw [if_neg hnlt] at hok
  cases hl : regularizeLoop n fuel m (regInitParents m) with
  | error e => simp only [hl] at hok; cases hok
  | ok r0 =>
    simp only [hl, decide_eq_false hnlt, Bool.false_eq_true, if_false] at hok
    cases hok
    exact fun id => regularizeLoop_post n fuel m (regInitParents m) _ hl id

/-- **C1 witness.** `regularize(1)` on the once-refined unit square returns at
a fixed point; the instantiated bound at element 1, edge 0. -/
theorem C1_regularize_bound_witness :
    Mesh.regularize 10 unitSquare1 1 = Except.ok unitSquare1Reg
    ∧ (unitSquare1Reg.1.get_edge_degree ((unitSquare1Reg.1.elemAt 1).vnAt 0)
        ((unitSquare1Reg.1.elemAt 1).vnAt
          ((unitSquare1Reg.1.elemAt 1).next_vert 0)) : Int) ≤ 1 :=
  ⟨by decide,
   C1_regularize_bound 10 unitSquare1 1 (by decide) unitSquare1Reg (by decide)
     1 (by decide) (by decide) 0 (by decide)⟩

/-- **C7 (amended).** For every `regularize(n)` call with `n ≥ 1`, the
returned parent-id array maps every element id that was used and active at
call time to its own id: the array is initialized with exactly those
self-entries, and every later write of the scan (`assign_parent`) targets only
the freshly appended son ids, never a pre-call id.  (Entries of ids already
inactive before the call are the `malloc`ed array's indeterminate contents —
see the counterexample — so the claim's "every id, including derelict ones,
maps to its nearest surviving ancestor" does not hold.) -/
theorem C7_parents_of_active (fuel : Nat) (m : Mesh) (n : Int) (hn : 1 ≤ n)
    (r : Mesh × List (Option Int)) (hok : m.regularize fuel n = .ok r) :
    ∀ idx, idx < m.elements.length → (m.elemAt idx).used = true →
      (m.elemAt idx).active = true → r.2.getD idx none = some (idx : Int) := by
  unfold Mesh.regularize at hok
  have hnlt : ¬(n < 1) := by omega
  rw [if_neg hnlt] at hok
  cases hl : regularizeLoop n fuel m (regInitParents m) with
  | error e => simp only [hl] at hok; cases hok
  | ok r0 =>
    simp only [hl, decide_eq_false hnlt, Bool.false_eq_true, if_false] at hok
    cases hok
    intro idx hidx hu ha
    exact regularizeLoop_par_pres m n fuel m (regInitParents m) _ hl
      (Nat.le_refl _)
      (by rw [length_regInitParents]; omega)
      (fun j hj hju hja => regInitParents_getD m j hj hju hja)
      idx hidx hu ha

/-- **C7 witness.** The amended theorem applied to `regularize(1)` on the
once-refined unit square: son element 1 is active at call time and its parent
entry is its own id. -/
theorem C7_parents_of_active_witness :
    (1 : Int) ≤ 1
    ∧ Mesh.regularize 10 unitSquare1 1 = Except.ok unitSquare1Reg
    ∧ 1 < unitSquare1.elements.length
    ∧ (unitSquare1.elemAt 1).used = true
    ∧ (unitSquare1.elemAt 1).active = true
    ∧ unitSquare1Reg.2.getD 1 none = some 1 :=
  ⟨by decide, by decide, by decide, by decide, by decide,
    C7_parents_of_active 10 unitSquare1 1 (by decide) unitSquare1Reg
      (by decide) 1 (by decide) (by decide) (by decide)⟩


/-- **C8 witness.** The amended theorem applied to the curved unit square with
`n = 0`: the loop converges immediately and element 0 is the first active
element, and it is curved. -/
theorem C8_regularize_curved_witness :
    Mesh.regularize 10 curvedSquare 0 =
      Except.error (HErr.generalException
        "Regularization of curved elements is not supported.") :=
  C8_regularize_curved 10 curvedSquare 0 (by decide)
    (curvedSquare, regInitParents curvedSquare) (by decide) 0 (by decide)
    (fun j hj => absurd hj (Nat.not_lt_zero j)) (by decide) (by decide)
    (by decide)

end Hermes2D
